import Mathlib

/-!
# PANOC solver (`panoc.cpp`): shallow embedding and verified properties

The C++ source works on `real_t` (double) and Eigen vectors `vec`.  The embedding
uses exact rational arithmetic for `real_t` and lists of rationals for `vec`;
rounding, NaN and signed infinities inside vectors are outside the model, and a
quotient by zero, NaN or an infinity in the source, is `0`.  Underflow of a
squared norm is modelled where a property depends on it, by the library square
root `sqrt_underflow`.  Infinite box bounds are modelled by `none`.

Naming: identifiers of the source are kept where the lexer admits them.  A hat
is written `_hat` (`x̂ₖ` is `x_hatₖ`, `calc_ẑ` is `calc_z_hat`), the index `ₖ₊₁`
is written `_next`, `Σ` is written `Sig`, `Σ⁻¹y` is `Sig_inv_y`, and
`grad_ψₖᵀrₖ` is `grad_ψₖ_rₖ`.
-/

namespace pa

/-! ## Scalars and vectors (Eigen operations used by the source) -/

/-- Scalar type `real_t` of the source, in exact arithmetic. -/
abbrev real_t := ℚ

/-- Dense vector type `vec` of the source. -/
abbrev vec := List ℚ

/-- Eigen `a + b`. -/
def vadd (a b : vec) : vec := List.zipWith (fun u v => u + v) a b

/-- Eigen `a - b`. -/
def vsub (a b : vec) : vec := List.zipWith (fun u v => u - v) a b

/-- Eigen `c * a` with a scalar `c`. -/
def smul (c : real_t) (a : vec) : vec := a.map (fun u => c * u)

/-- Eigen `a.array() * b.array()`. -/
def cwiseProduct (a b : vec) : vec := List.zipWith (fun u v => u * v) a b

/-- Eigen `a.array() / b.array()`. -/
def cwiseQuotient (a b : vec) : vec := List.zipWith (fun u v => u / v) a b

/-- Eigen `a.cwiseMax(c)` with a scalar `c`. -/
def cwiseMax (a : vec) (c : real_t) : vec := a.map (fun u => max u c)

/-- Eigen `a.dot(b)`. -/
def dot (a b : vec) : real_t := (List.zipWith (fun u v => u * v) a b).sum

/-- Eigen `a.squaredNorm()`. -/
def squaredNorm (a : vec) : real_t := dot a a

/-- Eigen `a.norm()`, the square root of `squaredNorm`; the square root is not a
rational function, so it is an argument. -/
def norm (sqrt : real_t → real_t) (a : vec) : real_t := sqrt (squaredNorm a)

namespace detail

/-- Modelled from the spec: `detail::norm_inf` is declared outside `panoc.cpp`; the
spec writes the stopping measure with the infinity norm, the largest absolute
value of a component. -/
def norm_inf (v : vec) : real_t := v.foldr (fun u acc => max |u| acc) 0

end detail

namespace detail

/-- Source lambda `max_lb` of `project_y`: `y_lb = z_lb == -inf ? 0 : -M`, then
`std::max(y, y_lb)`.  The entry of `z_lb` is a lower bound, `none` being `-inf`. -/
def max_lb (M : real_t) (y : real_t) (z_lb : Option ℚ) : real_t :=
  let y_lb : real_t := if z_lb = none then 0 else -M
  max y y_lb

/-- Source lambda `min_ub` of `project_y`: `y_ub = z_ub == inf ? 0 : M`, then
`std::min(y, y_ub)`.  The entry of `z_ub` is an upper bound, `none` being `inf`. -/
def min_ub (M : real_t) (y : real_t) (z_ub : Option ℚ) : real_t :=
  let y_ub : real_t := if z_ub = none then 0 else M
  min y y_ub

/-- Source `detail::project_y`: the new value of the in/out argument `y`, after
the two `binaryExpr` passes of source lines 24 and 30. -/
def project_y (y : vec) (z_lb z_ub : List (Option ℚ)) (M : real_t) : vec :=
  let y := List.zipWith (max_lb M) y z_lb
  List.zipWith (min_ub M) y z_ub

end detail

/-! ## Boxes, projection, problems -/

/-- Box-type set with lower and upper bound vectors; `none` is an infinite bound
(minus infinity below, plus infinity above). -/
structure Box where
  lowerbound : List (Option ℚ)
  upperbound : List (Option ℚ)
deriving DecidableEq

/-- Clamp of one component: an infinite bound does not clamp on its side. -/
def clamp (v : real_t) (lb ub : Option ℚ) : real_t :=
  let w := match lb with
    | none => v
    | some l => max v l
  match ub with
  | none => w
  | some u => min w u

/-- Modelled from the spec: `project` is declared outside `panoc.cpp`; for a box-type
set with lower/upper bound vectors it returns the componentwise clamp of `v`,
infinite bounds giving no clamping. -/
def project (v : vec) (S : Box) : vec :=
  List.zipWith3 clamp v S.lowerbound S.upperbound

/-- The box all of whose bounds are infinite, in dimension `k`. -/
def Box.univ (k : Nat) : Box :=
  { lowerbound := List.replicate k none, upperbound := List.replicate k none }

/-- Problem description `Problem` as used by `panoc.cpp`: the two sets and the four
oracles (output arguments of the source become results). -/
structure Problem where
  C : Box
  D : Box
  f : vec → real_t
  grad_f : vec → vec
  g : vec → vec
  grad_g : vec → vec → vec

/-- Routines the solver calls whose bodies are not in `panoc.cpp`: the square
root behind `norm`, `dist_squared`, and the `LBFGS` class with state type `M`. -/
structure Lib (M : Type) where
  sqrt : real_t → real_t
  dist_squared : vec → Box → vec → real_t
  lbfgs_new : Nat → Nat → M
  lbfgs_reset : M → M
  lbfgs_update : M → vec → vec → M
  lbfgs_apply : M → real_t → vec → vec

/-! ## The helper routines of `panoc.cpp` -/

/-- Source `calc_ẑ`: `ẑₖ = project(gₖ + Σ⁻¹y, p.D)`. -/
def calc_z_hat (p : Problem) (gₖ Sig_inv_y : vec) : vec :=
  project (vadd gₖ Sig_inv_y) p.D

/-- Source `calc_ŷ`: `ŷₖ = Σ.array() * (gₖ - ẑₖ).array() + y`. -/
def calc_y_hat (z_hatₖ gₖ y Sig : vec) : vec :=
  let Siggz := cwiseProduct Sig (vsub gₖ z_hatₖ)
  vadd Siggz y

/-- Source `calc_ẑŷ`: the fused routine writing only `ŷₖ`. -/
def calc_z_hat_y_hat (p : Problem) (gₖ Sig_inv_y y Sig : vec) : vec :=
  let z_hatₖ := project (vadd gₖ Sig_inv_y) p.D
  let Siggz := cwiseProduct Sig (vsub gₖ z_hatₖ)
  vadd Siggz y

/-- Source `calc_ψ`: `p.f(x) + 0.5 * dist_squared(ẑₖ, p.D, Σ)`. -/
def calc_ψ {M : Type} (lib : Lib M) (p : Problem) (x z_hatₖ Sig : vec) : real_t :=
  p.f x + (1 / 2) * lib.dist_squared z_hatₖ p.D Sig

/-- Source `calc_grad_ψ`: returns the pair `(grad_g, grad_ψₖ)` of its two outputs. -/
def calc_grad_ψ (p : Problem) (xₖ y_hatₖ : vec) : vec × vec :=
  let grad_ψₖ := p.grad_f xₖ
  let grad_g := p.grad_g xₖ y_hatₖ
  (grad_g, vadd grad_ψₖ grad_g)

/-- Source `calc_error_stop_crit`. -/
def calc_error_stop_crit (γ : real_t) (rₖ grad_hat_ψₖ grad_ψₖ : vec) : real_t :=
  let err := vsub (vadd (smul (1 / γ) rₖ) grad_hat_ψₖ) grad_ψₖ
  detail.norm_inf err

/-! ## The solver `PANOCSolver::operator()` -/

/-- Fields of `params.Lipschitz` read by the solver. -/
structure LipschitzParams where
  ε : real_t
  δ : real_t

/-- Fields of `PANOCSolver::params` read by the solver. -/
structure PANOCParams where
  Lipschitz : LipschitzParams
  lbfgs_mem : Nat
  max_iter : Nat

/-- The four caller-owned output arguments `x`, `z`, `y`, `err_z`. -/
structure Caller where
  x : vec
  z : vec
  y : vec
  err_z : vec
deriving DecidableEq

/-- Local variables of `operator()` that are live across outer iterations, with
the number of "Line search failed" lines written to `std::cerr` so far. -/
structure State (M : Type) where
  xₖ : vec
  x_hatₖ : vec
  z_hatₖ : vec
  rₖ : vec
  grad_ψₖ : vec
  ψₖ : real_t
  grad_ψₖ_rₖ : real_t
  norm_sq_rₖ : real_t
  L : real_t
  γ : real_t
  σ : real_t
  lbfgs : M
  cerr : Nat

/-- Everything that stays constant during the outer loop: the library routines,
the parameters, the problem, the caller variables as they are after `x += h`,
the weights, the tolerance and `Σ⁻¹y`. -/
structure Ctx (M : Type) where
  lib : Lib M
  params : PANOCParams
  problem : Problem
  caller : Caller
  Sig : vec
  ε : real_t
  Sig_inv_y : vec

/-- Source line 144: `h = (x * params.Lipschitz.ε).cwiseMax(params.Lipschitz.δ)`. -/
def fd_step (params : PANOCParams) (x : vec) : vec :=
  cwiseMax (smul params.Lipschitz.ε x) params.Lipschitz.δ

/-- Source lines 112 to 170: everything before the outer loop.  Returns the
constant context (holding the perturbed `x`) and the initial loop state. -/
def init {M : Type} (lib : Lib M) (params : PANOCParams) (problem : Problem)
    (x z y err_z Sig : vec) (ε : real_t) : Ctx M × State M :=
  let n := x.length
  let lbfgs := lib.lbfgs_new n params.lbfgs_mem
  let xₖ := x
  let Sig_inv_y := cwiseQuotient y Sig
  -- Estimate Lipschitz constant using finite difference
  let h := fd_step params x
  let x := vadd x h
  -- Calculate ∇ψ(x₀ + h)
  let g := problem.g x
  let y_hatₖ := calc_z_hat_y_hat problem g Sig_inv_y y Sig
  let grad_ψ_next := (calc_grad_ψ problem x y_hatₖ).2
  -- Calculate ẑ(x₀), ∇ψ(x₀)
  let g := problem.g xₖ
  let z_hatₖ := calc_z_hat problem g Sig_inv_y
  let y_hatₖ := calc_y_hat z_hatₖ g y Sig
  let grad_ψₖ := (calc_grad_ψ problem xₖ y_hatₖ).2
  -- Estimate Lipschitz constant
  let L := norm lib.sqrt (vsub grad_ψ_next grad_ψₖ) / norm lib.sqrt h
  let γ := (19 / 20) / L
  let σ := γ * (1 - γ * L) / 2
  -- Calculate x̂₀, r₀ (gradient step)
  let x_hatₖ := project (vsub xₖ (smul γ grad_ψₖ)) problem.C
  let rₖ := vsub xₖ x_hatₖ
  -- Calculate ψ(x₀), ∇ψ(x₀)ᵀr₀, ‖r₀‖²
  let ψₖ := calc_ψ lib problem x z_hatₖ Sig
  let grad_ψₖ_rₖ := dot grad_ψₖ rₖ
  let norm_sq_rₖ := squaredNorm rₖ
  ({ lib := lib, params := params, problem := problem,
     caller := { x := x, z := z, y := y, err_z := err_z },
     Sig := Sig, ε := ε, Sig_inv_y := Sig_inv_y },
   { xₖ := xₖ, x_hatₖ := x_hatₖ, z_hatₖ := z_hatₖ, rₖ := rₖ, grad_ψₖ := grad_ψₖ,
     ψₖ := ψₖ, grad_ψₖ_rₖ := grad_ψₖ_rₖ, norm_sq_rₖ := norm_sq_rₖ,
     L := L, γ := γ, σ := σ, lbfgs := lbfgs, cerr := 0 })

/-- Source lines 188 to 194: `g(x̂ₖ)`, `ŷₖ`, `∇ψ(x̂ₖ)` and the stopping measure `εₖ`;
returns `(g, ŷₖ, εₖ)`. -/
def stop_measure {M : Type} (c : Ctx M) (s : State M) : vec × vec × real_t :=
  let g := c.problem.g s.x_hatₖ
  let y_hatₖ := calc_z_hat_y_hat c.problem g c.Sig_inv_y c.caller.y c.Sig
  let grad_hat_ψₖ := (calc_grad_ψ c.problem s.x_hatₖ y_hatₖ).2
  (g, y_hatₖ, calc_error_stop_crit s.γ s.rₖ grad_hat_ψₖ s.grad_ψₖ)

/-- Source lines 196 to 199: the caller variables written on the success path. -/
def success_output {M : Type} (c : Ctx M) (s : State M) : Caller :=
  let gy := stop_measure c s
  let x := s.x_hatₖ
  let z := s.z_hatₖ
  let y := gy.2.1
  { x := x, z := z, y := y, err_z := vsub gy.1 z }

/-- Guard of the adaptation loop, source line 208, with `ψ̂xₖ` the current value of
`ψ(x̂ₖ)` and `margin` as computed before the loop. -/
def adapt_cond {M : Type} (margin ψ_hat_xₖ : real_t) (s : State M) : Prop :=
  ψ_hat_xₖ > s.ψₖ + margin - s.grad_ψₖ_rₖ + (1 / 2) * s.L / s.γ * s.norm_sq_rₖ

instance {M : Type} (margin ψ_hat_xₖ : real_t) (s : State M) :
    Decidable (adapt_cond margin ψ_hat_xₖ s) := by
  unfold adapt_cond; infer_instance

/-- Body of the adaptation loop, source lines 209 to 225: returns the new state
and the new `ψ̂xₖ`. -/
def adapt_body {M : Type} (c : Ctx M) (s : State M) : State M × real_t :=
  let lbfgs := c.lib.lbfgs_reset s.lbfgs
  let L := s.L * 2
  let σ := s.σ / 2
  let γ := s.γ / 2
  -- Calculate x̂ₖ and rₖ (with new step size)
  let x_hatₖ := project (vsub s.xₖ (smul γ s.grad_ψₖ)) c.problem.C
  let rₖ := vsub s.xₖ x_hatₖ
  -- Calculate ∇ψ(xₖ)ᵀrₖ, ‖rₖ‖²
  let grad_ψₖ_rₖ := dot s.grad_ψₖ rₖ
  let norm_sq_rₖ := squaredNorm rₖ
  -- Calculate ψ(x̂ₖ)
  let g := c.problem.g x_hatₖ
  let z_hatₖ := calc_z_hat c.problem g c.Sig_inv_y
  let ψ_hat_xₖ := calc_ψ c.lib c.problem x_hatₖ z_hatₖ c.Sig
  ({ s with lbfgs := lbfgs, L := L, σ := σ, γ := γ, x_hatₖ := x_hatₖ, rₖ := rₖ,
            grad_ψₖ_rₖ := grad_ψₖ_rₖ, norm_sq_rₖ := norm_sq_rₖ, z_hatₖ := z_hatₖ },
   ψ_hat_xₖ)

/-- The `while` loop of source lines 208 to 228.  The source loop has no bound;
`fuel` bounds the number of retries and `none` means the bound was reached
with the guard still true. -/
def adapt_loop {M : Type} (c : Ctx M) (margin : real_t) :
    Nat → State M → real_t → Option (State M × real_t)
  | 0, s, ψ_hat_xₖ => if adapt_cond margin ψ_hat_xₖ s then none else some (s, ψ_hat_xₖ)
  | fuel + 1, s, ψ_hat_xₖ =>
    if adapt_cond margin ψ_hat_xₖ s then
      adapt_loop c margin fuel (adapt_body c s).1 (adapt_body c s).2
    else some (s, ψ_hat_xₖ)

/-- Source lines 203 to 228: `ψ(x̂ₖ)`, the margin, and the adaptation loop. -/
def adapt {M : Type} (c : Ctx M) (fuel : Nat) (s : State M) : Option (State M × real_t) :=
  -- Calculate ψ(x̂ₖ)
  let g := c.problem.g s.x_hatₖ
  let z_hatₖ := calc_z_hat c.problem g c.Sig_inv_y
  let ψ_hat_xₖ := calc_ψ c.lib c.problem s.x_hatₖ z_hatₖ c.Sig
  let margin := (1 / 1000000) * |s.ψₖ|
  adapt_loop c margin fuel { s with z_hatₖ := z_hatₖ } ψ_hat_xₖ

/-- The values computed for one line-search candidate, source lines 242 to 257. -/
structure Candidate where
  x_next : vec
  z_hat_next : vec
  grad_ψ_next : vec
  x_hat_next : vec
  r_next : vec
  ψ_next : real_t
  grad_ψ_next_r_next : real_t
  norm_sq_r_next : real_t
  φ_next : real_t
deriving DecidableEq

/-- One pass through the body of the `do` loop for a given `τ`, source lines 242
to 257 (the halving of `τ` is in `line_search_loop`). -/
def ls_candidate {M : Type} (c : Ctx M) (s : State M) (dₖ : vec) (τ : real_t) : Candidate :=
  -- Calculate xₖ₊₁
  let x_next := vsub (vsub s.xₖ (smul (1 - τ) s.rₖ)) (smul τ dₖ)
  -- Calculate ẑ(xₖ₊₁), ∇ψ(xₖ₊₁)
  let g := c.problem.g x_next
  let z_hat_next := calc_z_hat c.problem g c.Sig_inv_y
  let y_hatₖ := calc_y_hat z_hat_next g c.caller.y c.Sig
  let grad_ψ_next := (calc_grad_ψ c.problem x_next y_hatₖ).2
  -- Calculate x̂ₖ₊₁, rₖ₊₁ (next gradient step)
  let x_hat_next := project (vsub x_next (smul s.γ grad_ψ_next)) c.problem.C
  let r_next := vsub x_next x_hat_next
  -- Calculate ψ(xₖ₊₁), ‖∇ψ(xₖ₊₁)‖², ‖rₖ₊₁‖²
  let ψ_next := calc_ψ c.lib c.problem x_next z_hat_next c.Sig
  let grad_ψ_next_r_next := dot grad_ψ_next r_next
  let norm_sq_r_next := squaredNorm r_next
  -- Calculate φ(xₖ₊₁)
  let φ_next := ψ_next - grad_ψ_next_r_next + (1 / 2) / s.γ * norm_sq_r_next
  { x_next := x_next, z_hat_next := z_hat_next, grad_ψ_next := grad_ψ_next,
    x_hat_next := x_hat_next, r_next := r_next, ψ_next := ψ_next,
    grad_ψ_next_r_next := grad_ψ_next_r_next, norm_sq_r_next := norm_sq_r_next,
    φ_next := φ_next }

/-- Source line 239: `τ_min = 1e-12`. -/
def τ_min : real_t := 1 / 1000000000000

/-- Source line 235: `φₖ = ψₖ - grad_ψₖᵀrₖ + 0.5 / γ * norm_sq_rₖ`. -/
def φ_of {M : Type} (s : State M) : real_t :=
  s.ψₖ - s.grad_ψₖ_rₖ + (1 / 2) / s.γ * s.norm_sq_rₖ

/-- Source line 236: `σ_norm_γ⁻¹rₖ = σ * norm_sq_rₖ / (γ * γ)`. -/
def σ_norm_of {M : Type} (s : State M) : real_t :=
  s.σ * s.norm_sq_rₖ / (s.γ * s.γ)

/-- The `do ... while` loop of source lines 240 to 260, started at `τ`; it returns
the last candidate computed and the value of `τ` on exit.  The recursion is on
a pass counter; `none` means the counter ran out (for the counter 40 used
by the solver this never happens, see `line_search_loop_isSome`). -/
def line_search_loop {M : Type} (c : Ctx M) (s : State M) (dₖ : vec) :
    Nat → real_t → Option (Candidate × real_t)
  | 0, _ => none
  | fuel + 1, τ =>
    let cand := ls_candidate c s dₖ τ
    let τ := τ / 2
    if cand.φ_next > φ_of s - σ_norm_of s ∧ τ ≥ τ_min then
      line_search_loop c s dₖ fuel τ
    else some (cand, τ)

/-- Source lines 238 to 260: the line search, started at `τ = 1`. -/
def line_search {M : Type} (c : Ctx M) (s : State M) (dₖ : vec) :
    Option (Candidate × real_t) :=
  line_search_loop c s dₖ 40 1

/-- Source lines 262 to 281 for the candidate and `τ` left by the line search:
the failure report, the L-BFGS update and the advance step. -/
def advance_step {M : Type} (c : Ctx M) (s : State M) (cand : Candidate) (τ : real_t) :
    State M :=
  let cerr := if τ < τ_min then s.cerr + 1 else s.cerr
  -- Update LBFGS
  let lbfgs := c.lib.lbfgs_update s.lbfgs (vsub cand.x_next s.xₖ) (vsub cand.r_next s.rₖ)
  -- Advance step
  { s with ψₖ := cand.ψ_next, xₖ := cand.x_next, x_hatₖ := cand.x_hat_next,
           z_hatₖ := cand.z_hat_next, rₖ := cand.r_next, grad_ψₖ := cand.grad_ψ_next,
           grad_ψₖ_rₖ := cand.grad_ψ_next_r_next, norm_sq_rₖ := cand.norm_sq_r_next,
           lbfgs := lbfgs, cerr := cerr }

/-- Source lines 203 to 281: the part of the loop body after the stop check.
The result is `none` when the adaptation loop does not exit within `fuel`
retries. -/
def advance {M : Type} (c : Ctx M) (fuel : Nat) (s : State M) : Option (State M) :=
  match adapt c fuel s with
  | none => none
  | some (s, _) =>
    -- Calculate Newton step
    let dₖ := c.lib.lbfgs_apply s.lbfgs 1 s.rₖ
    -- Line search
    match line_search c s dₖ with
    | none => none
    | some (cand, τ) => some (advance_step c s cand τ)

/-- How a call of `operator()` ends: a normal return, the exception
"max iterations exceeded", or an adaptation loop that did not exit within the
fuel.  The first two carry the caller variables as they are left. -/
inductive Outcome where
  | returned (out : Caller)
  | thrown (out : Caller)
  | no_fuel
deriving DecidableEq

/-- The outer `for` loop, source lines 172 to 283, with `iters` iterations left. -/
def outer_loop {M : Type} (c : Ctx M) (fuel : Nat) : Nat → State M → Outcome
  | 0, _ => Outcome.thrown c.caller
  | iters + 1, s =>
    -- Check stop condition
    if (stop_measure c s).2.2 ≤ c.ε then Outcome.returned (success_output c s)
    else
      match advance c fuel s with
      | none => Outcome.no_fuel
      | some s => outer_loop c fuel iters s

/-- Source `PANOCSolver::operator()`.  `fuel` bounds the retries of each
adaptation loop. -/
def PANOCSolver {M : Type} (lib : Lib M) (params : PANOCParams) (fuel : Nat)
    (problem : Problem) (x z y err_z Sig : vec) (ε : real_t) : Outcome :=
  let cs := init lib params problem x z y err_z Sig ε
  outer_loop cs.1 fuel params.max_iter cs.2

/-! ## A concrete library, for running the embedding on concrete inputs -/

/-- Newton iteration for the integer square root, `k` steps from the guess `x`. -/
def isqrt_iter (n : Nat) : Nat → Nat → Nat
  | 0, x => x
  | k + 1, x =>
    let y := (x + n / x) / 2
    if y < x then isqrt_iter n k y else x

/-- Integer square root by at most 200 Newton steps from `n`. -/
def isqrt (n : Nat) : Nat := if n ≤ 1 then n else isqrt_iter n 200 n

/-- A rounding of the square root on rationals: the integer square roots of
numerator and denominator.  It serves to run the embedding on concrete inputs;
the theorems hold for every `sqrt`. -/
def sqrt_ref (q : real_t) : real_t := (isqrt q.num.toNat : ℚ) / (isqrt q.den : ℚ)

/-- A square root that underflows as the one of IEEE binary64 does when Eigen
`norm()` takes the root of a computed `squaredNorm()`: an argument below `2⁻¹⁰⁷⁵`,
half the least positive binary64 number, has been rounded to `0`, whose root is
`0`; from there on it is `sqrt_ref`. -/
def sqrt_underflow (q : real_t) : real_t := if q < 1 / 2 ^ 1075 then 0 else sqrt_ref q

/-- Modelled from the spec: `dist_squared` is declared outside `panoc.cpp`; the spec
lists it as the squared-distance-to-set primitive and calls it with the slack,
the set `D` and the weights, so it is the weighted squared distance from its
first argument to its projection onto the set. -/
def dist_squared_ref (v : vec) (D : Box) (Sig : vec) : real_t :=
  let d := vsub v (project v D)
  dot d (cwiseProduct Sig d)

/-- Modelled from the spec: the `LBFGS` class is declared outside `panoc.cpp`; a
bounded history of pairs `(s, y)`, oldest first, the capacity `mem` and the
curvature threshold. -/
structure LBFGS where
  mem : Nat
  threshold : real_t
  hist : List (vec × vec)
deriving DecidableEq

/-- Modelled from the spec: `LBFGS::reset` clears the history. -/
def LBFGS.reset (l : LBFGS) : LBFGS := { l with hist := [] }

/-- Modelled from the spec: `LBFGS::update` admits the pair only if `sᵀy` exceeds
the threshold, and evicts the oldest pair when at capacity before inserting; a
memory of capacity 0 stores nothing, so that the history never holds more than
`mem` pairs. -/
def LBFGS.update (l : LBFGS) (s y : vec) : LBFGS :=
  if l.mem = 0 then l
  else if dot s y > l.threshold then
    let kept := if l.hist.length ≥ l.mem then l.hist.drop 1 else l.hist
    { l with hist := kept ++ [(s, y)] }
  else l

/-- First pass of the two-loop recursion over the pairs in the order given:
returns the reduced vector and the coefficients `α`, last visited first. -/
def LBFGS.first_pass : List (vec × vec) → vec → List ((vec × vec) × real_t) →
    vec × List ((vec × vec) × real_t)
  | [], q, acc => (q, acc)
  | (s, y) :: t, q, acc =>
    let α := dot s q / dot y s
    LBFGS.first_pass t (vsub q (smul α y)) (((s, y), α) :: acc)

/-- Second pass of the two-loop recursion over the pairs in the order given. -/
def LBFGS.second_pass : List ((vec × vec) × real_t) → vec → vec
  | [], r => r
  | ((s, y), α) :: t, r =>
    let β := dot y r / dot y s
    LBFGS.second_pass t (vadd r (smul (α - β) s))

/-- Modelled from the spec: `LBFGS::apply(scale, v)` is the two-loop recursion over
the stored pairs, oldest-to-newest then newest-to-oldest; with an empty history
it returns `scale·v`. -/
def LBFGS.apply (l : LBFGS) (scale : real_t) (v : vec) : vec :=
  let qa := LBFGS.first_pass l.hist v []
  LBFGS.second_pass qa.2 (smul scale qa.1)

/-- The concrete library: `sqrt_ref`, `dist_squared_ref` and the `LBFGS` model with
a given curvature threshold. -/
def lib_ref (threshold : real_t) : Lib LBFGS :=
  { sqrt := sqrt_ref
    dist_squared := dist_squared_ref
    lbfgs_new := fun _ mem => { mem := mem, threshold := threshold, hist := [] }
    lbfgs_reset := LBFGS.reset
    lbfgs_update := LBFGS.update
    lbfgs_apply := LBFGS.apply }

/-- The concrete library with curvature threshold `1e-10`. -/
def lib_ex : Lib LBFGS := lib_ref (1 / 10000000000)

/-! ## Definitions used to state the properties -/

/-- The state at the start of outer iteration `k` when no earlier iteration
stopped: `k` times the part of the loop body after the stop check. -/
def iterate_state {M : Type} (c : Ctx M) (fuel : Nat) : Nat → State M → Option (State M)
  | 0, s => some s
  | k + 1, s =>
    match advance c fuel s with
    | none => none
    | some s => iterate_state c fuel k s

/-- The loop variables of the adaptation loop after `j` passes through its body. -/
def adapt_iter {M : Type} (c : Ctx M) : Nat → State M × real_t → State M × real_t
  | 0, sψ => sψ
  | j + 1, sψ => adapt_iter c j (adapt_body c sψ.1)

/-- The variables with which the adaptation loop is entered, source lines 204
and 205. -/
def adapt_entry {M : Type} (c : Ctx M) (s : State M) : State M × real_t :=
  let z_hatₖ := calc_z_hat c.problem (c.problem.g s.x_hatₖ) c.Sig_inv_y
  ({ s with z_hatₖ := z_hatₖ }, calc_ψ c.lib c.problem s.x_hatₖ z_hatₖ c.Sig)

/-- The gradient of the merit function at a point as the source computes it:
`g`, then the slack, then the multiplier estimate, then `calc_grad_ψ`. -/
def grad_ψ_at (problem : Problem) (Sig_inv_y y Sig x : vec) : vec :=
  let g := problem.g x
  let z_hat := calc_z_hat problem g Sig_inv_y
  let y_hat := calc_y_hat z_hat g y Sig
  vadd (problem.grad_f x) (problem.grad_g x y_hat)

/-- The perturbation as the spec words it: `max(|xᵢ|·ε_rel, δ_abs)` componentwise. -/
def fd_step_spec (params : PANOCParams) (x : vec) : vec :=
  x.map (fun u => max (|u| * params.Lipschitz.ε) params.Lipschitz.δ)

/-- The weighted squared distance between two vectors as the spec words it:
the sum over the components of `Σᵢ·(aᵢ − bᵢ)²`. -/
def weighted_sq_dist (Sig a b : vec) : real_t :=
  (List.zipWith3 (fun w u v => w * (u - v) ^ 2) Sig a b).sum

/-- The acceptance test of the line search, the negation of the first conjunct of
the loop guard on source line 260. -/
def ls_accepts {M : Type} (s : State M) (cand : Candidate) : Prop :=
  cand.φ_next ≤ φ_of s - σ_norm_of s

instance {M : Type} (s : State M) (cand : Candidate) : Decidable (ls_accepts s cand) := by
  unfold ls_accepts; infer_instance

/-- The relation between `L`, `γ` and `σ` set up on source lines 160 and 161. -/
def step_size_inv {M : Type} (s : State M) : Prop :=
  s.γ = (19 / 20) / s.L ∧ s.σ = s.γ * (1 - s.γ * s.L) / 2

/-- The projected-gradient quantities agree with the current step size. -/
def gradient_step_consistent {M : Type} (c : Ctx M) (s : State M) : Prop :=
  s.x_hatₖ = project (vsub s.xₖ (smul s.γ s.grad_ψₖ)) c.problem.C
  ∧ s.rₖ = vsub s.xₖ s.x_hatₖ
  ∧ s.grad_ψₖ_rₖ = dot s.grad_ψₖ s.rₖ
  ∧ s.norm_sq_rₖ = squaredNorm s.rₖ

/-- The slack and the value `ψ̂xₖ` agree with the current `x̂ₖ`. -/
def merit_hat_consistent {M : Type} (c : Ctx M) (sψ : State M × real_t) : Prop :=
  sψ.1.z_hatₖ = calc_z_hat c.problem (c.problem.g sψ.1.x_hatₖ) c.Sig_inv_y
  ∧ sψ.2 = calc_ψ c.lib c.problem sψ.1.x_hatₖ
      (calc_z_hat c.problem (c.problem.g sψ.1.x_hatₖ) c.Sig_inv_y) c.Sig

/-- The triple after some number of doublings of the initial estimate. -/
def doubled_from {M : Type} (s0 s : State M) : Prop :=
  ∃ j : Nat, s.L = 2 ^ j * s0.L ∧ s.γ = s0.γ / 2 ^ j ∧ s.σ = s0.σ / 2 ^ j

/-- The descent test of the adaptation loop as the spec words it, on the loop
variables (state and current `ψ(x̂ₖ)`):
`ψ(x̂ₖ) > ψ(xₖ) − ⟨∇ψ(xₖ), rₖ⟩ + (L/2γ)‖rₖ‖² + margin`. -/
def descent_test_fails {M : Type} (margin : real_t) (sψ : State M × real_t) : Prop :=
  sψ.2 > sψ.1.ψₖ - sψ.1.grad_ψₖ_rₖ + sψ.1.L / (2 * sψ.1.γ) * sψ.1.norm_sq_rₖ + margin

instance {M : Type} (margin : real_t) (sψ : State M × real_t) :
    Decidable (descent_test_fails margin sψ) := by
  unfold descent_test_fails; infer_instance

/-- For one outer iteration entered after the stop check: whether the candidate
left by the line search passes the acceptance test, and whether
"Line search failed" is written (source line 262). -/
def line_search_report {M : Type} (c : Ctx M) (fuel : Nat) (s : State M) :
    Option (Bool × Bool) :=
  match adapt c fuel s with
  | none => none
  | some (s, _) =>
    match line_search c s (c.lib.lbfgs_apply s.lbfgs 1 s.rₖ) with
    | none => none
    | some (cand, τ) => some (decide (ls_accepts s cand), decide (τ < τ_min))

/-- The stop condition of source line 195 at a state. -/
def stops {M : Type} (c : Ctx M) (s : State M) : Prop :=
  (stop_measure c s).2.2 ≤ c.ε

instance {M : Type} (c : Ctx M) (s : State M) : Decidable (stops c s) := by
  unfold stops; infer_instance

/-- The stopping measure as the spec words it:
`εₖ = ‖(1/γ)rₖ + ∇ψ(x̂ₖ) − ∇ψ(xₖ)‖_∞`, with `∇ψ(xₖ)` the stored gradient. -/
def stop_measure_spec {M : Type} (problem : Problem) (Sig_inv_y y Sig : vec) (s : State M) :
    real_t :=
  detail.norm_inf
    (vsub (vadd (smul (1 / s.γ) s.rₖ) (grad_ψ_at problem Sig_inv_y y Sig s.x_hatₖ)) s.grad_ψₖ)

/-- The state at iteration `k` is the first at which the stop condition holds. -/
def first_stop {M : Type} (c : Ctx M) (fuel : Nat) (s : State M) (k : Nat) (sk : State M) :
    Prop :=
  iterate_state c fuel k s = some sk ∧ stops c sk
  ∧ ∀ j, j < k → ∀ sj, iterate_state c fuel j s = some sj → ¬ stops c sj

/-- The line-search loop of source lines 240 to 260 with a log: the same loop as
`line_search_loop`, which in addition appends to `log` the value of `τ` of every
candidate it evaluates, in the order of evaluation. -/
def line_search_loop_log {M : Type} (c : Ctx M) (s : State M) (dₖ : vec) :
    Nat → real_t → List real_t → Option ((Candidate × real_t) × List real_t)
  | 0, _, _ => none
  | fuel + 1, τ, log =>
    let cand := ls_candidate c s dₖ τ
    let log := log ++ [τ]
    let τ := τ / 2
    if cand.φ_next > φ_of s - σ_norm_of s ∧ τ ≥ τ_min then
      line_search_loop_log c s dₖ fuel τ log
    else some ((cand, τ), log)

/-- The values `1, ½, ¼, …, 1/2^j`, in that order. -/
def halvings (j : Nat) : List real_t := (List.range (j + 1)).map (fun i => 1 / 2 ^ i)

/-- A component lies between its bounds; an infinite bound imposes nothing. -/
def within (a : real_t) (lb ub : Option ℚ) : Prop :=
  (match lb with
    | none => True
    | some l => l ≤ a)
  ∧ (match ub with
    | none => True
    | some u => a ≤ u)

/-- The lower bound of a component is at most its upper bound (always so when
one of them is infinite). -/
def bounds_ordered (lb ub : Option ℚ) : Prop :=
  match lb, ub with
  | some l, some u => l ≤ u
  | _, _ => True

/-- The vector `v` has the dimension of the box and lies inside it: `lb ≤ v ≤ ub`
componentwise. -/
def in_box (S : Box) (v : vec) : Prop :=
  v.length = S.lowerbound.length ∧ v.length = S.upperbound.length
  ∧ ∀ (i : Nat) (a : real_t) (lb ub : Option ℚ),
      v[i]? = some a → S.lowerbound[i]? = some lb → S.upperbound[i]? = some ub →
      within a lb ub

/-- The box has `lb ≤ ub` componentwise. -/
def Box.ordered (S : Box) : Prop :=
  ∀ (i : Nat) (lb ub : Option ℚ),
    S.lowerbound[i]? = some lb → S.upperbound[i]? = some ub → bounds_ordered lb ub

/-- The stored gradient is the merit gradient at `xₖ` as the source computes it. -/
def grad_consistent {M : Type} (c : Ctx M) (s : State M) : Prop :=
  s.grad_ψₖ = grad_ψ_at c.problem c.Sig_inv_y c.caller.y c.Sig s.xₖ

/-- The lower end of the range of a multiplier as the claim words it: `0` if the
lower bound of the constraint is `−∞`, `−M` otherwise. -/
def y_lb_of (M : real_t) (z_lb : Option ℚ) : real_t :=
  match z_lb with
  | none => 0
  | some _ => -M

/-- The upper end of the range of a multiplier as the claim words it: `0` if the
upper bound of the constraint is `+∞`, `M` otherwise. -/
def y_ub_of (M : real_t) (z_ub : Option ℚ) : real_t :=
  match z_ub with
  | none => 0
  | some _ => M

/-! ## Concrete inputs -/

/-- Example parameters: relative perturbation `1/5`, absolute perturbation `1`. -/
def params_ex (max_iter : Nat) : PANOCParams :=
  { Lipschitz := { ε := 1 / 5, δ := 1 }, lbfgs_mem := 5, max_iter := max_iter }

/-- Parameters with relative and absolute perturbation `1e-200`, both positive. -/
def params_tiny (max_iter : Nat) : PANOCParams :=
  { Lipschitz := { ε := 1 / 10 ^ 200, δ := 1 / 10 ^ 200 }, lbfgs_mem := 5, max_iter := max_iter }

/-- The unconstrained problem `f(x) = x²` with `n = 1`, `m = 0`. -/
def problem_sq : Problem :=
  { C := Box.univ 1, D := Box.univ 0
    f := fun x => dot x x
    grad_f := fun x => smul 2 x
    g := fun _ => []
    grad_g := fun _ _ => [0] }

/-- A problem with a steep wall right of `1`: `f(x) = (x − 3)²` plus `1000·(x − 1)²`
for `x > 1`, with `n = 1`, `m = 0`. -/
def problem_wall : Problem :=
  { C := Box.univ 1, D := Box.univ 0
    f := fun x =>
      match x with
      | [u] => (u - 3) ^ 2 + (if u > 1 then 1000 * (u - 1) ^ 2 else 0)
      | _ => 0
    grad_f := fun x =>
      match x with
      | [u] => [2 * (u - 3) + (if u > 1 then 2000 * (u - 1) else 0)]
      | _ => x
    g := fun _ => []
    grad_g := fun _ _ => [0] }

/-- Parameters used with `problem_wall`: absolute perturbation `1/100`. -/
def params_wall (max_iter : Nat) : PANOCParams :=
  { Lipschitz := { ε := 1 / 5, δ := 1 / 100 }, lbfgs_mem := 5, max_iter := max_iter }

/-- The problem `f(x) = ‖x‖²` subject to `x₁ + x₂ − 1 ∈ {0}`, with `n = 2`, `m = 1`. -/
def problem_eq : Problem :=
  { C := Box.univ 2, D := Box.mk [some 0] [some 0]
    f := fun x => dot x x
    grad_f := fun x => smul 2 x
    g := fun x => [x.sum - 1]
    grad_g := fun x y => x.map (fun _ => y.sum) }

/-- A problem with a cliff: `f(x) = x²` for `x ≥ p` and `x² + 1000` for `x < p`, where
`p = (1 − 2⁻³⁹)/80`; the gradient oracle returns `2x`; `n = 1`, `m = 0`. -/
def problem_cliff : Problem :=
  { C := Box.univ 1, D := Box.univ 0
    f := fun x =>
      match x with
      | [u] => u ^ 2 + (if u < (1 - 1 / 2 ^ 39) / 80 then 1000 else 0)
      | _ => 0
    grad_f := fun x => smul 2 x
    g := fun _ => []
    grad_g := fun _ _ => [0] }

/-- A box in dimension 3: `[0, 1]`, then `(−∞, 2]`, then all of `ℝ`. -/
def box_ex : Box :=
  { lowerbound := [some 0, none, none], upperbound := [some 1, some 2, none] }

/-- The problem `f(x) = x²` with the constraint map `g(x) = x` and `D = ℝ`; the adjoint
product of `g` is `grad_g(x, y) = y`; `n = 1`, `m = 1`. -/
def problem_id : Problem :=
  { C := Box.univ 1, D := Box.univ 1
    f := fun x => dot x x
    grad_f := fun x => smul 2 x
    g := fun x => x
    grad_g := fun _ y => y }

theorem clamp_none (v : real_t) : clamp v none none = v := rfl

theorem zipWith3_clamp_none (v : vec) :
    ∀ k, v.length = k →
      List.zipWith3 clamp v (List.replicate k none) (List.replicate k none) = v := by
  induction v with
  | nil => intro k _; cases k <;> rfl
  | cons a t ih =>
    intro k hk
    cases k with
    | zero => simp at hk
    | succ k =>
      simp only [List.length_cons, Nat.add_right_cancel_iff] at hk
      simp only [List.replicate_succ, List.zipWith3, clamp_none, ih k hk]

theorem project_univ (v : vec) (k : Nat) (h : v.length = k) : project v (Box.univ k) = v := by
  unfold project Box.univ
  exact zipWith3_clamp_none v k h

theorem vadd_length (a b : vec) (h : a.length = b.length) : (vadd a b).length = a.length := by
  simp [vadd, h]

theorem cwiseQuotient_length (a b : vec) (h : a.length = b.length) :
    (cwiseQuotient a b).length = a.length := by
  simp [cwiseQuotient, h]

theorem vadd_zero_quot : ∀ (g Sig : vec), g.length = Sig.length →
    vadd g (cwiseQuotient (List.replicate g.length 0) Sig) = g := by
  intro g
  induction g with
  | nil => intro Sig _; simp [vadd]
  | cons a t ih =>
    intro Sig h
    cases Sig with
    | nil => simp at h
    | cons w Sig =>
      simp only [List.length_cons, Nat.add_right_cancel_iff] at h
      have := ih Sig h
      simp only [vadd, cwiseQuotient, List.length_cons, List.replicate_succ,
        List.zipWith_cons_cons] at this ⊢
      rw [this]
      simp

/-- With `D` the whole space the multiplier estimate cancels, componentwise. -/
theorem y_hat_cancel : ∀ (g y Sig : vec), g.length = y.length → y.length = Sig.length →
    (∀ w ∈ Sig, 0 < w) →
    calc_y_hat (vadd g (cwiseQuotient y Sig)) g y Sig = List.replicate g.length 0 := by
  intro g
  induction g with
  | nil => intro y Sig _ _ _; simp [calc_y_hat, vadd, vsub, cwiseProduct]
  | cons a t ih =>
    intro y Sig h1 h2 hpos
    cases y with
    | nil => simp at h1
    | cons b y =>
      cases Sig with
      | nil => simp at h2
      | cons w Sig =>
        simp only [List.length_cons, Nat.add_right_cancel_iff] at h1 h2
        have hw : 0 < w := hpos w (List.mem_cons_self _ _)
        have ih2 := ih y Sig h1 h2 (fun u hu => hpos u (List.mem_cons_of_mem _ hu))
        simp only [calc_y_hat, vadd, vsub, cwiseProduct, cwiseQuotient, List.zipWith_cons_cons,
          List.length_cons, List.replicate_succ] at ih2 ⊢
        rw [ih2]
        congr 1
        field_simp
        ring

/-! ## C9: what `calc_ψ` returns -/

/-- C9 (as stated, refuted): no `dist_squared` makes `calc_ψ` return `f(x)` plus one half
of the weighted squared distance from `g(x)` to the slack, because `calc_ψ` never
evaluates `g`: two problems that differ only in `g` get the same value. -/
theorem C9_calc_psi_not_distance_from_g :
    ¬ ∃ lib : Lib LBFGS, ∀ (p : Problem) (x z_hat Sig : vec),
        calc_ψ lib p x z_hat Sig = p.f x + (1 / 2) * weighted_sq_dist Sig (p.g x) z_hat := by
  rintro ⟨lib, h⟩
  have h0 := h { problem_sq with g := fun _ => [0] } [] [0] [1]
  have h1 := h { problem_sq with g := fun _ => [1] } [] [0] [1]
  have e : calc_ψ lib { problem_sq with g := fun _ => [0] } [] [0] [1]
      = calc_ψ lib { problem_sq with g := fun _ => [1] } [] [0] [1] := rfl
  rw [h0, h1] at e
  simp [weighted_sq_dist, List.zipWith3] at e

/-- C9 (amended): `calc_ψ` returns `f(x)` plus one half of `dist_squared(ẑ, D, Σ)`; the
value does not change when the constraint map `g` of the problem is replaced by
any other; and with `dist_squared` the weighted squared distance to the set it is
`f(x)` plus one half of the sum of `Σᵢ·(ẑᵢ − project(ẑ, D)ᵢ)²`. -/
theorem C9_calc_psi_value {M : Type} (lib : Lib M) (p : Problem) (x z_hat Sig : vec) :
    calc_ψ lib p x z_hat Sig = p.f x + (1 / 2) * lib.dist_squared z_hat p.D Sig
    ∧ (∀ g2 : vec → vec, calc_ψ lib { p with g := g2 } x z_hat Sig = calc_ψ lib p x z_hat Sig)
    ∧ calc_ψ lib_ex p x z_hat Sig
        = p.f x + (1 / 2) * dot (vsub z_hat (project z_hat p.D))
            (cwiseProduct Sig (vsub z_hat (project z_hat p.D))) :=
  ⟨rfl, fun _ => rfl, rfl⟩

/-! ## C10: the slack and the multiplier estimate when `D` is the whole space -/

/-- C10 (as stated, refuted): with `D = ℝ¹`, `g(x) = [0]`, `y = [1]`, `Σ = [1]` the slack is
`[1]`, not `g(x)`, and the multiplier estimate is `[0]`, not `y`. -/
theorem C10_counterexample :
    calc_z_hat { problem_sq with D := Box.univ 1 } [0] (cwiseQuotient [1] [1]) ≠ [0]
    ∧ calc_y_hat (calc_z_hat { problem_sq with D := Box.univ 1 } [0] (cwiseQuotient [1] [1]))
        [0] [1] [1] ≠ [1] := by
  decide!

/-- C10 (amended): when `D` is the whole space, for every `g(x)`, `y` and `Σ` of the same
length with `Σ` positive, `calc_ẑ` returns `g(x) + Σ⁻¹y` and `calc_ŷ` applied to it
returns the zero vector; so `ẑ = g(x)` and `ŷ = y` hold when `y = 0`. -/
theorem C10_slack_and_multiplier_unconstrained (p : Problem) (g y Sig : vec)
    (hD : p.D = Box.univ g.length) (hy : g.length = y.length) (hS : y.length = Sig.length)
    (hpos : ∀ w ∈ Sig, 0 < w) :
    calc_z_hat p g (cwiseQuotient y Sig) = vadd g (cwiseQuotient y Sig)
    ∧ calc_y_hat (calc_z_hat p g (cwiseQuotient y Sig)) g y Sig = List.replicate g.length 0
    ∧ (y = List.replicate g.length 0 →
        calc_z_hat p g (cwiseQuotient y Sig) = g
        ∧ calc_y_hat (calc_z_hat p g (cwiseQuotient y Sig)) g y Sig = y) := by
  have hz : calc_z_hat p g (cwiseQuotient y Sig) = vadd g (cwiseQuotient y Sig) := by
    unfold calc_z_hat
    rw [hD]
    apply project_univ
    rw [vadd_length _ _ (by rw [cwiseQuotient_length _ _ hS, hy])]
  have hyh := y_hat_cancel g y Sig hy hS hpos
  refine ⟨hz, by rw [hz]; exact hyh, ?_⟩
  intro h0
  refine ⟨?_, by rw [hz, hyh, h0]⟩
  rw [hz, h0]
  exact vadd_zero_quot g Sig (by rw [hy, hS])

/-- Witness for C10 (amended) at `g(x) = [3, -1]`, `y = [2, 4]`, `Σ = [4, 8]`. -/
theorem C10_slack_and_multiplier_unconstrained_witness :
    calc_z_hat { problem_sq with D := Box.univ 2 } [3, -1] (cwiseQuotient [2, 4] [4, 8])
      = [7 / 2, -1 / 2]
    ∧ calc_y_hat (calc_z_hat { problem_sq with D := Box.univ 2 } [3, -1]
        (cwiseQuotient [2, 4] [4, 8])) [3, -1] [2, 4] [4, 8] = [0, 0] := by
  have h := C10_slack_and_multiplier_unconstrained { problem_sq with D := Box.univ 2 }
    [3, -1] [2, 4] [4, 8] rfl rfl rfl (by decide!)
  refine ⟨?_, h.2.1⟩
  rw [h.1]
  decide!

/-! ## C5 and C6: the finite-difference perturbation and the initial merit value -/

/-- C5 (code evaluated at the failing input): for `f(x) = x²`, `x₀ = [5]`, `ε_rel = 1/5`,
`δ_abs = 1` the perturbation is `h = [1]` and the stored `ψ₀` is `36 = f(x₀ + h)`, while
`calc_ψ(problem, x₀, ẑ₀, Σ)` is `25`; in general the stored `ψ₀` is `calc_ψ` at
`x₀ + h` with the slack of `x₀`. -/
theorem C5_init_merit_at_perturbed_point :
    (init lib_ex (params_ex 10) problem_sq [5] [] [] [] [] (1 / 100000000)).2.ψₖ = 36
    ∧ calc_ψ lib_ex problem_sq [5]
        (init lib_ex (params_ex 10) problem_sq [5] [] [] [] [] (1 / 100000000)).2.z_hatₖ []
        = 25
    ∧ ∀ {M : Type} (lib : Lib M) (params : PANOCParams) (problem : Problem)
        (x z y err_z Sig : vec) (ε : real_t),
        (init lib params problem x z y err_z Sig ε).2.ψₖ
          = calc_ψ lib problem (vadd x (fd_step params x))
              (calc_z_hat problem (problem.g x) (cwiseQuotient y Sig)) Sig := by
  refine ⟨by decide!, by decide!, ?_⟩
  intros
  rfl

/-- C6 (as stated, refuted): for `x = [-10]`, `ε_rel = 1/5`, `δ_abs = 1` the source computes
`h = [1]`, while `max(|x|·ε_rel, δ_abs)` is `[2]`. -/
theorem C6_counterexample :
    fd_step (params_ex 10) [-10] = [1] ∧ fd_step_spec (params_ex 10) [-10] = [2] := by
  decide!

/-- C6 (amended): for every starting point the perturbation is, componentwise,
`hᵢ = max(xᵢ·ε_rel, δ_abs)` with the signed component; it equals
`max(|xᵢ|·ε_rel, δ_abs)` when no component of `x` is negative; and the initial `L` is
computed from the merit gradient evaluated at `x` and at `x + h`. -/
theorem C6_fd_perturbation {M : Type} (lib : Lib M) (params : PANOCParams)
    (problem : Problem) (x z y err_z Sig : vec) (ε : real_t) :
    fd_step params x = x.map (fun u => max (u * params.Lipschitz.ε) params.Lipschitz.δ)
    ∧ ((∀ u ∈ x, 0 ≤ u) → fd_step params x = fd_step_spec params x)
    ∧ (init lib params problem x z y err_z Sig ε).1.caller.x = vadd x (fd_step params x)
    ∧ (init lib params problem x z y err_z Sig ε).2.grad_ψₖ
        = grad_ψ_at problem (cwiseQuotient y Sig) y Sig x
    ∧ (init lib params problem x z y err_z Sig ε).2.L
        = norm lib.sqrt (vsub (grad_ψ_at problem (cwiseQuotient y Sig) y Sig
              (vadd x (fd_step params x)))
            (grad_ψ_at problem (cwiseQuotient y Sig) y Sig x))
          / norm lib.sqrt (fd_step params x) := by
  have h1 : fd_step params x
      = x.map (fun u => max (u * params.Lipschitz.ε) params.Lipschitz.δ) := by
    simp only [fd_step, cwiseMax, smul, List.map_map]
    apply List.map_congr_left
    intro u _
    simp [mul_comm]
  refine ⟨h1, ?_, rfl, rfl, rfl⟩
  intro hx
  rw [h1]
  unfold fd_step_spec
  apply List.map_congr_left
  intro u hu
  rw [abs_of_nonneg (hx u hu)]

/-- Witness for C6 (amended) at `x = [5, 0]`: both wordings give `h = [1, 1]`. -/
theorem C6_fd_perturbation_witness :
    (∀ u ∈ ([5, 0] : vec), 0 ≤ u)
    ∧ fd_step (params_ex 10) [5, 0] = fd_step_spec (params_ex 10) [5, 0] :=
  ⟨by decide!, (C6_fd_perturbation lib_ex (params_ex 10) problem_sq [5, 0] [] [] [] []
      0).2.1 (by decide!)⟩

/-! ## The adaptation loop -/

theorem adapt_iter_succ {M : Type} (c : Ctx M) (j : Nat) (sψ : State M × real_t) :
    adapt_iter c (j + 1) sψ = adapt_body c (adapt_iter c j sψ).1 := by
  induction j generalizing sψ with
  | zero => rfl
  | succ j ih =>
    show adapt_iter c (j + 1) (adapt_body c sψ.1) = _
    rw [ih]
    rfl

/-- What a finished run of the adaptation loop looks like: `j` passes through the
body, each entered with the guard true, and the guard false at the end. -/
theorem adapt_loop_some {M : Type} (c : Ctx M) (margin : real_t) :
    ∀ (fuel : Nat) (sψ r : State M × real_t),
      adapt_loop c margin fuel sψ.1 sψ.2 = some r →
      ∃ j, j ≤ fuel ∧ r = adapt_iter c j sψ ∧ ¬ adapt_cond margin r.2 r.1
        ∧ ∀ i, i < j → adapt_cond margin (adapt_iter c i sψ).2 (adapt_iter c i sψ).1 := by
  intro fuel
  induction fuel with
  | zero =>
    intro sψ r h
    unfold adapt_loop at h
    split at h
    · exact absurd h (by simp)
    · rename_i hc
      simp only [Option.some.injEq] at h
      subst h
      exact ⟨0, le_refl _, rfl, hc, fun i hi => absurd hi (Nat.not_lt_zero i)⟩
  | succ fuel ih =>
    intro sψ r h
    unfold adapt_loop at h
    split at h
    · rename_i hc
      obtain ⟨j, hj, hr, hn, hall⟩ := ih (adapt_body c sψ.1) r h
      refine ⟨j + 1, Nat.succ_le_succ hj, hr, hn, ?_⟩
      intro i hi
      cases i with
      | zero => exact hc
      | succ i => exact hall i (Nat.lt_of_succ_lt_succ hi)
    · rename_i hc
      simp only [Option.some.injEq] at h
      subst h
      exact ⟨0, Nat.zero_le _, rfl, hc, fun i hi => absurd hi (Nat.not_lt_zero i)⟩

/-- The adaptation loop exits as soon as the fuel covers a pass count at which
the guard is false. -/
theorem adapt_loop_isSome {M : Type} (c : Ctx M) (margin : real_t) :
    ∀ (fuel : Nat) (sψ : State M × real_t) (j : Nat), j ≤ fuel →
      ¬ adapt_cond margin (adapt_iter c j sψ).2 (adapt_iter c j sψ).1 →
      (adapt_loop c margin fuel sψ.1 sψ.2).isSome = true := by
  intro fuel
  induction fuel with
  | zero =>
    intro sψ j hj hn
    have : j = 0 := Nat.le_zero.mp hj
    subst this
    have hn2 : ¬ adapt_cond margin sψ.2 sψ.1 := hn
    unfold adapt_loop
    rw [if_neg hn2]
    rfl
  | succ fuel ih =>
    intro sψ j hj hn
    unfold adapt_loop
    split
    · cases j with
      | zero => rename_i hc; exact absurd hc hn
      | succ j => exact ih (adapt_body c sψ.1) j (Nat.le_of_succ_le_succ hj) hn
    · rfl

/-- The quantities the adaptation loop never writes, and the three it rescales. -/
theorem adapt_iter_fields {M : Type} (c : Ctx M) (j : Nat) (sψ : State M × real_t) :
    (adapt_iter c j sψ).1.xₖ = sψ.1.xₖ ∧ (adapt_iter c j sψ).1.grad_ψₖ = sψ.1.grad_ψₖ
    ∧ (adapt_iter c j sψ).1.ψₖ = sψ.1.ψₖ ∧ (adapt_iter c j sψ).1.cerr = sψ.1.cerr
    ∧ (adapt_iter c j sψ).1.L = 2 ^ j * sψ.1.L
    ∧ (adapt_iter c j sψ).1.γ = sψ.1.γ / 2 ^ j
    ∧ (adapt_iter c j sψ).1.σ = sψ.1.σ / 2 ^ j := by
  induction j with
  | zero => simp [adapt_iter]
  | succ j ih =>
    obtain ⟨h1, h2, h3, h4, h5, h6, h7⟩ := ih
    rw [adapt_iter_succ]
    refine ⟨h1, h2, h3, h4, ?_, ?_, ?_⟩
    · show (adapt_iter c j sψ).1.L * 2 = _
      rw [h5]; ring
    · show (adapt_iter c j sψ).1.γ / 2 = _
      rw [h6]; ring
    · show (adapt_iter c j sψ).1.σ / 2 = _
      rw [h7]; ring

theorem adapt_body_consistent {M : Type} (c : Ctx M) (s : State M) :
    gradient_step_consistent c (adapt_body c s).1 ∧ merit_hat_consistent c (adapt_body c s) :=
  ⟨⟨rfl, rfl, rfl, rfl⟩, rfl, rfl⟩

theorem adapt_iter_consistent {M : Type} (c : Ctx M) (j : Nat) (sψ : State M × real_t) :
    ((0 < j ∨ gradient_step_consistent c sψ.1) → gradient_step_consistent c (adapt_iter c j sψ).1)
    ∧ ((0 < j ∨ merit_hat_consistent c sψ) → merit_hat_consistent c (adapt_iter c j sψ)) := by
  cases j with
  | zero =>
    constructor
    · rintro (h | h)
      · exact absurd h (Nat.lt_irrefl 0)
      · exact h
    · rintro (h | h)
      · exact absurd h (Nat.lt_irrefl 0)
      · exact h
  | succ j =>
    rw [adapt_iter_succ]
    exact ⟨fun _ => (adapt_body_consistent c _).1, fun _ => (adapt_body_consistent c _).2⟩

theorem adapt_eq {M : Type} (c : Ctx M) (fuel : Nat) (s : State M) :
    adapt c fuel s
      = adapt_loop c ((1 / 1000000) * |s.ψₖ|) fuel (adapt_entry c s).1 (adapt_entry c s).2 :=
  rfl

/-- Rewriting of the loop guard in the form used by the spec. -/
theorem adapt_cond_iff {M : Type} (margin ψ_hat : real_t) (s : State M) :
    adapt_cond margin ψ_hat s
      ↔ ψ_hat > s.ψₖ - s.grad_ψₖ_rₖ + s.L / (2 * s.γ) * s.norm_sq_rₖ + margin := by
  unfold adapt_cond
  have : s.ψₖ + margin - s.grad_ψₖ_rₖ + (1 / 2) * s.L / s.γ * s.norm_sq_rₖ
      = s.ψₖ - s.grad_ψₖ_rₖ + s.L / (2 * s.γ) * s.norm_sq_rₖ + margin := by
    rw [div_eq_mul_inv, div_eq_mul_inv, div_eq_mul_inv, mul_inv]
    ring
  rw [this]

/-! ## One outer iteration after the stop check -/

theorem advance_some {M : Type} (c : Ctx M) (fuel : Nat) (s s2 : State M)
    (h : advance c fuel s = some s2) :
    ∃ (r : State M × real_t) (cand : Candidate) (τ : real_t),
      adapt c fuel s = some r
      ∧ line_search c r.1 (c.lib.lbfgs_apply r.1.lbfgs 1 r.1.rₖ) = some (cand, τ)
      ∧ s2 = advance_step c r.1 cand τ := by
  unfold advance at h
  split at h
  · exact absurd h (by simp)
  · rename_i r1 r2 hr
    dsimp only at h
    split at h
    · exact absurd h (by simp)
    · rename_i cand τ hl
      simp only [Option.some.injEq] at h
      exact ⟨(r1, r2), cand, τ, hr, hl, h.symm⟩

theorem adapt_some {M : Type} (c : Ctx M) (fuel : Nat) (s : State M) (r : State M × real_t)
    (h : adapt c fuel s = some r) :
    ∃ j, j ≤ fuel ∧ r = adapt_iter c j (adapt_entry c s)
      ∧ ¬ adapt_cond ((1 / 1000000) * |s.ψₖ|) r.2 r.1
      ∧ ∀ i, i < j → adapt_cond ((1 / 1000000) * |s.ψₖ|)
          (adapt_iter c i (adapt_entry c s)).2 (adapt_iter c i (adapt_entry c s)).1 := by
  rw [adapt_eq] at h
  exact adapt_loop_some c _ fuel (adapt_entry c s) r h

/-- Invariant induction along `iterate_state`. -/
theorem iterate_state_induct {M : Type} (c : Ctx M) (fuel : Nat) (P : State M → Prop)
    (hstep : ∀ s s2, P s → advance c fuel s = some s2 → P s2) :
    ∀ (k : Nat) (s s2 : State M), P s → iterate_state c fuel k s = some s2 → P s2 := by
  intro k
  induction k with
  | zero =>
    intro s s2 hP h
    simp only [iterate_state, Option.some.injEq] at h
    exact h ▸ hP
  | succ k ih =>
    intro s s2 hP h
    unfold iterate_state at h
    split at h
    · exact absurd h (by simp)
    · rename_i s1 hs1
      exact ih s1 s2 (hstep s s1 hP hs1) h

/-! ## C7: the triple `(L, γ, σ)` -/

theorem step_size_inv_pos {M : Type} (s : State M) (h : step_size_inv s) (hL : 0 < s.L) :
    0 < s.γ ∧ 0 < s.σ := by
  obtain ⟨hγ, hσ⟩ := h
  have hγpos : 0 < s.γ := by rw [hγ]; positivity
  have hγL : s.γ * s.L = 19 / 20 := by
    rw [hγ]; field_simp; ring
  refine ⟨hγpos, ?_⟩
  rw [hσ, hγL]
  have : s.γ * (1 - 19 / 20) / 2 = s.γ / 40 := by ring
  rw [this]
  positivity

theorem adapt_body_step_size {M : Type} (c : Ctx M) (s : State M) (h : step_size_inv s)
    (hL : 0 < s.L) :
    (adapt_body c s).1.L = 2 * s.L ∧ (adapt_body c s).1.γ = s.γ / 2
    ∧ (adapt_body c s).1.σ = s.σ / 2 ∧ step_size_inv (adapt_body c s).1
    ∧ s.L < (adapt_body c s).1.L ∧ (adapt_body c s).1.γ < s.γ ∧ 0 < (adapt_body c s).1.σ := by
  obtain ⟨hγpos, hσpos⟩ := step_size_inv_pos s h hL
  obtain ⟨hγ, hσ⟩ := h
  have e1 : (adapt_body c s).1.L = s.L * 2 := rfl
  have e2 : (adapt_body c s).1.γ = s.γ / 2 := rfl
  have e3 : (adapt_body c s).1.σ = s.σ / 2 := rfl
  refine ⟨by rw [e1]; ring, e2, e3, ⟨?_, ?_⟩, by rw [e1]; linarith, by rw [e2]; linarith,
    by rw [e3]; positivity⟩
  · rw [e1, e2, hγ]
    field_simp
    ring
  · rw [e1, e2, e3, hσ]
    ring

theorem doubled_from_inv {M : Type} (s0 s : State M) (h0 : step_size_inv s0) (hL : 0 < s0.L)
    (h : doubled_from s0 s) : step_size_inv s ∧ 0 < s.L ∧ 0 < s.σ := by
  obtain ⟨j, hLj, hγj, hσj⟩ := h
  obtain ⟨_, hσpos⟩ := step_size_inv_pos s0 h0 hL
  obtain ⟨hγ, hσ⟩ := h0
  have h2 : (0 : ℚ) < 2 ^ j := by positivity
  refine ⟨⟨?_, ?_⟩, by rw [hLj]; positivity, by rw [hσj]; positivity⟩
  · rw [hγj, hLj, hγ]
    field_simp
    ring
  · rw [hσj, hγj, hLj, hσ]
    field_simp
    ring

theorem doubled_from_adapt_iter {M : Type} (c : Ctx M) (s0 s : State M) (j : Nat)
    (h : doubled_from s0 s) : doubled_from s0 (adapt_iter c j (adapt_entry c s)).1 := by
  obtain ⟨i, hL, hγ, hσ⟩ := h
  obtain ⟨_, _, _, _, h5, h6, h7⟩ := adapt_iter_fields c j (adapt_entry c s)
  refine ⟨j + i, ?_, ?_, ?_⟩
  · rw [h5]
    show 2 ^ j * s.L = _
    rw [hL, pow_add]; ring
  · rw [h6]
    show s.γ / 2 ^ j = _
    rw [hγ, pow_add, div_div]; congr 1; ring
  · rw [h7]
    show s.σ / 2 ^ j = _
    rw [hσ, pow_add, div_div]; congr 1; ring

theorem doubled_from_advance {M : Type} (c : Ctx M) (fuel : Nat) (s0 s s2 : State M)
    (h : doubled_from s0 s) (ha : advance c fuel s = some s2) : doubled_from s0 s2 := by
  obtain ⟨r, cand, τ, hr, _, hs2⟩ := advance_some c fuel s s2 ha
  obtain ⟨j, _, hrj, _, _⟩ := adapt_some c fuel s r hr
  have := doubled_from_adapt_iter c s0 s j h
  rw [← hrj] at this
  rw [hs2]
  exact this

/-- C7: when the initial estimate `L₀` is positive, `γ = 0.95/L` and `σ = γ(1 − γL)/2` hold
after INIT; every pass through the adaptation body doubles `L`, halves `γ` and `σ`
and keeps the two relations, with `L` strictly larger, `γ` strictly smaller and `σ`
positive; and at the start of every outer iteration and at every exit of the
adaptation loop the triple is `(2^j·L₀, γ₀/2^j, σ₀/2^j)` for some `j`, satisfies the
two relations and has `σ` positive. -/
theorem C7_step_size_triple {M : Type} (lib : Lib M) (params : PANOCParams)
    (problem : Problem) (x z y err_z Sig : vec) (ε : real_t) (fuel : Nat)
    (hL : 0 < (init lib params problem x z y err_z Sig ε).2.L) :
    step_size_inv (init lib params problem x z y err_z Sig ε).2
    ∧ 0 < (init lib params problem x z y err_z Sig ε).2.σ
    ∧ (∀ s : State M, step_size_inv s → 0 < s.L →
        (adapt_body (init lib params problem x z y err_z Sig ε).1 s).1.L = 2 * s.L
        ∧ (adapt_body (init lib params problem x z y err_z Sig ε).1 s).1.γ = s.γ / 2
        ∧ (adapt_body (init lib params problem x z y err_z Sig ε).1 s).1.σ = s.σ / 2
        ∧ step_size_inv (adapt_body (init lib params problem x z y err_z Sig ε).1 s).1
        ∧ s.L < (adapt_body (init lib params problem x z y err_z Sig ε).1 s).1.L
        ∧ (adapt_body (init lib params problem x z y err_z Sig ε).1 s).1.γ < s.γ
        ∧ 0 < (adapt_body (init lib params problem x z y err_z Sig ε).1 s).1.σ)
    ∧ (∀ (k : Nat) (s : State M),
        iterate_state (init lib params problem x z y err_z Sig ε).1 fuel k
          (init lib params problem x z y err_z Sig ε).2 = some s →
        (∃ j : Nat, s.L = 2 ^ j * (init lib params problem x z y err_z Sig ε).2.L
          ∧ s.γ = (init lib params problem x z y err_z Sig ε).2.γ / 2 ^ j
          ∧ s.σ = (init lib params problem x z y err_z Sig ε).2.σ / 2 ^ j)
        ∧ step_size_inv s ∧ 0 < s.L ∧ 0 < s.σ
        ∧ ∀ r : State M × real_t,
            adapt (init lib params problem x z y err_z Sig ε).1 fuel s = some r →
            (∃ j : Nat, r.1.L = 2 ^ j * s.L ∧ r.1.γ = s.γ / 2 ^ j ∧ r.1.σ = s.σ / 2 ^ j)
            ∧ step_size_inv r.1 ∧ 0 < r.1.σ) := by
  have h0 : step_size_inv (init lib params problem x z y err_z Sig ε).2 := ⟨rfl, rfl⟩
  refine ⟨h0, (step_size_inv_pos _ h0 hL).2, ?_, ?_⟩
  · intro s hs hsL
    exact adapt_body_step_size _ s hs hsL
  · intro k s hk
    have hd : doubled_from (init lib params problem x z y err_z Sig ε).2 s :=
      iterate_state_induct _ fuel (doubled_from (init lib params problem x z y err_z Sig ε).2)
        (fun a b ha hab => doubled_from_advance _ fuel _ a b ha hab) k _ s
        ⟨0, by simp, by simp, by simp⟩ hk
    obtain ⟨hinv, hLs, hσs⟩ := doubled_from_inv _ s h0 hL hd
    refine ⟨hd, hinv, hLs, hσs, ?_⟩
    intro r hr
    obtain ⟨j, _, hrj, _, _⟩ := adapt_some _ fuel s r hr
    have hdr : doubled_from s r.1 := by
      rw [hrj]
      exact doubled_from_adapt_iter _ s s j ⟨0, by simp, by simp, by simp⟩
    obtain ⟨hinvr, _, hσr⟩ := doubled_from_inv s r.1 hinv hLs hdr
    exact ⟨hdr, hinvr, hσr⟩

/-- Witness for C7 on `problem_wall` from `x₀ = [0]`, where `L₀ = 2`. -/
theorem C7_step_size_triple_witness :
    0 < (init lib_ex (params_wall 10) problem_wall [0] [] [] [] [] (1 / 100000000)).2.L
    ∧ step_size_inv
        (init lib_ex (params_wall 10) problem_wall [0] [] [] [] [] (1 / 100000000)).2
    ∧ 0 < (init lib_ex (params_wall 10) problem_wall [0] [] [] [] []
        (1 / 100000000)).2.σ :=
  ⟨by decide!,
   (C7_step_size_triple lib_ex (params_wall 10) problem_wall [0] [] [] [] []
      (1 / 100000000) 10 (by decide!)).1,
   (C7_step_size_triple lib_ex (params_wall 10) problem_wall [0] [] [] [] []
      (1 / 100000000) 10 (by decide!)).2.1⟩

/-! ## The line search -/

theorem halve_pow (τ : real_t) (j : Nat) : τ / 2 / 2 ^ j = τ / 2 ^ (j + 1) := by
  rw [div_div, pow_succ]
  congr 1
  ring

/-- What the line-search loop returns: the candidate of pass `j`, with all earlier
candidates rejected, and the exit caused by acceptance or by `τ < τ_min`. -/
theorem line_search_loop_some {M : Type} (c : Ctx M) (s : State M) (dₖ : vec) :
    ∀ (fuel : Nat) (τ₀ : real_t) (cand : Candidate) (τ : real_t),
      line_search_loop c s dₖ fuel τ₀ = some (cand, τ) →
      ∃ j, j < fuel ∧ cand = ls_candidate c s dₖ (τ₀ / 2 ^ j) ∧ τ = τ₀ / 2 ^ (j + 1)
        ∧ (∀ i, i < j → ¬ ls_accepts s (ls_candidate c s dₖ (τ₀ / 2 ^ i))
            ∧ τ_min ≤ τ₀ / 2 ^ (i + 1))
        ∧ (ls_accepts s cand ∨ τ < τ_min) := by
  intro fuel
  induction fuel with
  | zero => intro τ₀ cand τ h; exact absurd h (by simp [line_search_loop])
  | succ fuel ih =>
    intro τ₀ cand τ h
    unfold line_search_loop at h
    dsimp only at h
    split at h
    · rename_i hc
      obtain ⟨j, hj, hcand, hτ, hall, hex⟩ := ih (τ₀ / 2) cand τ h
      refine ⟨j + 1, Nat.succ_lt_succ hj, ?_, ?_, ?_, hex⟩
      · rw [hcand, halve_pow]
      · rw [hτ, halve_pow]
      · intro i hi
        cases i with
        | zero =>
          refine ⟨fun ha => ?_, ?_⟩
          · have ha2 : (ls_candidate c s dₖ τ₀).φ_next ≤ φ_of s - σ_norm_of s := by
              simpa [ls_accepts] using ha
            exact absurd hc.1 (not_lt.mpr ha2)
          have := hc.2
          simpa using this
        | succ i =>
          have := hall i (Nat.lt_of_succ_lt_succ hi)
          rw [halve_pow, halve_pow] at this
          exact this
    · rename_i hc
      simp only [Option.some.injEq, Prod.mk.injEq] at h
      obtain ⟨h1, h2⟩ := h
      refine ⟨0, Nat.succ_pos _, by rw [← h1]; simp, by rw [← h2]; simp, ?_, ?_⟩
      · intro i hi; exact absurd hi (Nat.not_lt_zero i)
      · rw [← h1, ← h2]
        by_cases ha : ls_accepts s (ls_candidate c s dₖ τ₀)
        · exact Or.inl ha
        · right
          by_contra hlt
          exact hc ⟨not_le.mp ha, not_lt.mp hlt⟩

/-- The line-search loop returns once the pass counter covers the halvings that
bring `τ` below `τ_min`. -/
theorem line_search_loop_isSome {M : Type} (c : Ctx M) (s : State M) (dₖ : vec) :
    ∀ (fuel : Nat) (τ₀ : real_t), τ₀ / 2 ^ (fuel + 1) < τ_min →
      (line_search_loop c s dₖ (fuel + 1) τ₀).isSome = true := by
  intro fuel
  induction fuel with
  | zero =>
    intro τ₀ h
    unfold line_search_loop
    dsimp only
    split
    · rename_i hc
      have h2 : τ_min ≤ τ₀ / 2 := hc.2
      simp only [zero_add, pow_one] at h
      exact absurd h (not_lt.mpr h2)
    · rfl
  | succ fuel ih =>
    intro τ₀ h
    unfold line_search_loop
    dsimp only
    split
    · apply ih
      rw [halve_pow]
      exact h
    · rfl

theorem line_search_isSome {M : Type} (c : Ctx M) (s : State M) (dₖ : vec) :
    (line_search c s dₖ).isSome = true := by
  unfold line_search
  apply line_search_loop_isSome c s dₖ 39 1
  unfold τ_min
  norm_num

theorem gradient_step_consistent_init {M : Type} (lib : Lib M) (params : PANOCParams)
    (problem : Problem) (x z y err_z Sig : vec) (ε : real_t) :
    gradient_step_consistent (init lib params problem x z y err_z Sig ε).1
      (init lib params problem x z y err_z Sig ε).2 :=
  ⟨rfl, rfl, rfl, rfl⟩

theorem gradient_step_consistent_advance {M : Type} (c : Ctx M) (fuel : Nat) (s s2 : State M)
    (h : advance c fuel s = some s2) : gradient_step_consistent c s2 := by
  obtain ⟨r, cand, τ, _, hl, hs2⟩ := advance_some c fuel s s2 h
  obtain ⟨j, _, hcand, _, _, _⟩ := line_search_loop_some c r.1 _ 40 1 cand τ hl
  rw [hs2, hcand]
  exact ⟨rfl, rfl, rfl, rfl⟩

theorem gradient_step_consistent_reachable {M : Type} (lib : Lib M) (params : PANOCParams)
    (problem : Problem) (x z y err_z Sig : vec) (ε : real_t) (fuel k : Nat) (sk : State M)
    (h : iterate_state (init lib params problem x z y err_z Sig ε).1 fuel k
      (init lib params problem x z y err_z Sig ε).2 = some sk) :
    gradient_step_consistent (init lib params problem x z y err_z Sig ε).1 sk :=
  iterate_state_induct _ fuel (gradient_step_consistent _)
    (fun a b _ hab => gradient_step_consistent_advance _ fuel a b hab) k _ sk
    (gradient_step_consistent_init lib params problem x z y err_z Sig ε) h

/-! ## C8: the descent test of the adaptation loop -/

theorem descent_test_fails_iff {M : Type} (margin : real_t) (sψ : State M × real_t) :
    descent_test_fails margin sψ ↔ adapt_cond margin sψ.2 sψ.1 :=
  (adapt_cond_iff margin sψ.2 sψ.1).symm

/-- C8: a run of the adaptation loop that exits went `j` times through its body, each
time entered with `ψ(x̂ₖ) > ψ(xₖ) − ⟨∇ψ(xₖ), rₖ⟩ + (L/2γ)‖rₖ‖² + margin` for the
current variables, and on exit the converse inequality holds for the current `L`,
`γ`, `x̂ₖ`, `rₖ`, with `margin = 1e-6·|ψₖ|` for the stored `ψₖ` (which the loop leaves
unchanged, like `xₖ` and `∇ψ(xₖ)`), with `ψ(x̂ₖ)` the merit value at the current `x̂ₖ`
and its slack, and with `x̂ₖ`, `rₖ` and the two cached scalars recomputed from the
current `γ` whenever the body ran (or they already agreed with `γ` on entry).
Conversely the loop exits as soon as the test stops failing within the fuel; and at
the start of every outer iteration of a solve `x̂ₖ`, `rₖ` and the cached scalars agree
with the current `γ`, so the condition on entry holds there. -/
theorem C8_adaptation_loop {M : Type} (c : Ctx M) (fuel : Nat) (s : State M) :
    (∀ r : State M × real_t, adapt c fuel s = some r →
      ∃ j, j ≤ fuel ∧ r = adapt_iter c j (adapt_entry c s)
        ∧ (∀ i, i < j →
            descent_test_fails ((1 / 1000000) * |s.ψₖ|) (adapt_iter c i (adapt_entry c s)))
        ∧ r.2 ≤ r.1.ψₖ - r.1.grad_ψₖ_rₖ + r.1.L / (2 * r.1.γ) * r.1.norm_sq_rₖ
            + (1 / 1000000) * |r.1.ψₖ|
        ∧ r.1.ψₖ = s.ψₖ ∧ r.1.xₖ = s.xₖ ∧ r.1.grad_ψₖ = s.grad_ψₖ
        ∧ r.2 = calc_ψ c.lib c.problem r.1.x_hatₖ
            (calc_z_hat c.problem (c.problem.g r.1.x_hatₖ) c.Sig_inv_y) c.Sig
        ∧ ((0 < j ∨ gradient_step_consistent c s) →
            r.1.x_hatₖ = project (vsub r.1.xₖ (smul r.1.γ r.1.grad_ψₖ)) c.problem.C
            ∧ r.1.rₖ = vsub r.1.xₖ r.1.x_hatₖ
            ∧ r.1.grad_ψₖ_rₖ = dot r.1.grad_ψₖ r.1.rₖ
            ∧ r.1.norm_sq_rₖ = squaredNorm r.1.rₖ))
    ∧ (∀ j, j ≤ fuel →
        ¬ descent_test_fails ((1 / 1000000) * |s.ψₖ|) (adapt_iter c j (adapt_entry c s)) →
        (adapt c fuel s).isSome = true)
    ∧ (∀ (lib : Lib M) (params : PANOCParams) (problem : Problem) (x z y err_z Sig : vec)
        (ε : real_t) (k : Nat) (sk : State M),
        iterate_state (init lib params problem x z y err_z Sig ε).1 fuel k
          (init lib params problem x z y err_z Sig ε).2 = some sk →
        gradient_step_consistent (init lib params problem x z y err_z Sig ε).1 sk) := by
  refine ⟨?_, ?_, ?_⟩
  · intro r hr
    obtain ⟨j, hj, hrj, hn, hall⟩ := adapt_some c fuel s r hr
    obtain ⟨f1, f2, f3, _, _, _, _⟩ := adapt_iter_fields c j (adapt_entry c s)
    have hψ : r.1.ψₖ = s.ψₖ := by rw [hrj, f3]; rfl
    refine ⟨j, hj, hrj, ?_, ?_, hψ, by rw [hrj, f1]; rfl, by rw [hrj, f2]; rfl, ?_, ?_⟩
    · intro i hi
      exact (descent_test_fails_iff _ _).mpr (hall i hi)
    · have hle := not_lt.mp (fun h => hn ((adapt_cond_iff _ _ _).mpr h))
      rw [hψ]
      rw [hψ] at hle
      exact hle
    · have := (adapt_iter_consistent c j (adapt_entry c s)).2 (Or.inr ⟨rfl, rfl⟩)
      rw [← hrj] at this
      exact this.2
    · intro h
      have := (adapt_iter_consistent c j (adapt_entry c s)).1 (h.imp id (fun g => g))
      rw [← hrj] at this
      exact this
  · intro j hj hn
    rw [adapt_eq]
    exact adapt_loop_isSome c _ fuel (adapt_entry c s) j hj
      (fun h => hn ((descent_test_fails_iff _ _).mpr h))
  · intro lib params problem x z y err_z Sig ε k sk h
    exact gradient_step_consistent_reachable lib params problem x z y err_z Sig ε fuel k sk h

/-- Witness for C8 on `problem_wall` from `x₀ = [0]`: the loop exits after two passes
with `L = 8`, and the exit inequality holds. -/
theorem C8_adaptation_loop_witness :
    ∃ r : State LBFGS × real_t,
      adapt (init lib_ex (params_wall 10) problem_wall [0] [] [] [] [] (1 / 100000000)).1
        10 (init lib_ex (params_wall 10) problem_wall [0] [] [] [] [] (1 / 100000000)).2
        = some r
      ∧ r.2 ≤ r.1.ψₖ - r.1.grad_ψₖ_rₖ + r.1.L / (2 * r.1.γ) * r.1.norm_sq_rₖ
            + (1 / 1000000) * |r.1.ψₖ| := by
  have h := C8_adaptation_loop
    (init lib_ex (params_wall 10) problem_wall [0] [] [] [] [] (1 / 100000000)).1 10
    (init lib_ex (params_wall 10) problem_wall [0] [] [] [] [] (1 / 100000000)).2
  have hs := h.2.1 2 (by decide) (by decide!)
  obtain ⟨r, hr⟩ := Option.isSome_iff_exists.mp hs
  obtain ⟨j, _, _, _, hle, _⟩ := h.1 r hr
  exact ⟨r, hr, hle⟩

/-! ## C3: the accepted candidate -/

/-- C4 (code evaluated at the failing input): on `problem_cliff` from `x₀ = [5]` with
`ε_rel = 1/5`, `δ_abs = 1`, outer iteration 0 ends without report, and in outer
iteration 1 the line search leaves a candidate that passes the acceptance test
while "Line search failed" is written: the count of reports goes from 0 to 1, and
the next iterate is the candidate of `τ = 2⁻³⁹`, the point `p` of the cliff. -/
theorem C4_report_despite_acceptance :
    (iterate_state
        (init lib_ex (params_ex 10) problem_cliff [5] [] [] [] [] (1 / 100000000)).1 10 1
        (init lib_ex (params_ex 10) problem_cliff [5] [] [] [] [] (1 / 100000000)).2).bind
      (line_search_report
        (init lib_ex (params_ex 10) problem_cliff [5] [] [] [] [] (1 / 100000000)).1 10)
      = some (true, true)
    ∧ (iterate_state
        (init lib_ex (params_ex 10) problem_cliff [5] [] [] [] [] (1 / 100000000)).1 10 1
        (init lib_ex (params_ex 10) problem_cliff [5] [] [] [] [] (1 / 100000000)).2).map
      (fun s => s.cerr) = some 0
    ∧ (iterate_state
        (init lib_ex (params_ex 10) problem_cliff [5] [] [] [] [] (1 / 100000000)).1 10 2
        (init lib_ex (params_ex 10) problem_cliff [5] [] [] [] [] (1 / 100000000)).2).map
      (fun s => s.cerr) = some 1
    ∧ (iterate_state
        (init lib_ex (params_ex 10) problem_cliff [5] [] [] [] [] (1 / 100000000)).1 10 2
        (init lib_ex (params_ex 10) problem_cliff [5] [] [] [] [] (1 / 100000000)).2).map
      (fun s => s.xₖ) = some [(1 - 1 / 2 ^ 39) / 80] := by
  decide!

/-! ## The outer loop -/

theorem stops_iff_spec {M : Type} (c : Ctx M) (s : State M) :
    stops c s ↔ stop_measure_spec c.problem c.Sig_inv_y c.caller.y c.Sig s ≤ c.ε :=
  Iff.rfl

theorem iterate_state_succ_some {M : Type} (c : Ctx M) (fuel k : Nat) (s s1 : State M)
    (h : advance c fuel s = some s1) :
    iterate_state c fuel (k + 1) s = iterate_state c fuel k s1 := by
  show (match advance c fuel s with
    | none => none
    | some s => iterate_state c fuel k s) = _
  rw [h]

theorem iterate_state_succ_none {M : Type} (c : Ctx M) (fuel k : Nat) (s : State M)
    (h : advance c fuel s = none) :
    iterate_state c fuel (k + 1) s = none := by
  show (match advance c fuel s with
    | none => none
    | some s => iterate_state c fuel k s) = _
  rw [h]

theorem first_stop_zero {M : Type} (c : Ctx M) (fuel : Nat) (s : State M) (h : stops c s)
    (k : Nat) (sk : State M) : first_stop c fuel s k sk ↔ k = 0 ∧ sk = s := by
  constructor
  · rintro ⟨h1, _, h3⟩
    cases k with
    | zero =>
      simp only [iterate_state, Option.some.injEq] at h1
      exact ⟨rfl, h1.symm⟩
    | succ k => exact absurd h (h3 0 (Nat.succ_pos k) s rfl)
  · rintro ⟨rfl, rfl⟩
    exact ⟨rfl, h, fun j hj => absurd hj (Nat.not_lt_zero j)⟩

theorem first_stop_succ {M : Type} (c : Ctx M) (fuel : Nat) (s s1 : State M)
    (h : ¬ stops c s) (ha : advance c fuel s = some s1) (k : Nat) (sk : State M) :
    first_stop c fuel s k sk ↔ ∃ k1, k = k1 + 1 ∧ first_stop c fuel s1 k1 sk := by
  constructor
  · rintro ⟨h1, h2, h3⟩
    cases k with
    | zero =>
      simp only [iterate_state, Option.some.injEq] at h1
      exact absurd (h1 ▸ h2) h
    | succ k =>
      refine ⟨k, rfl, ?_, h2, ?_⟩
      · rw [← iterate_state_succ_some c fuel k s s1 ha]; exact h1
      · intro j hj sj hsj
        apply h3 (j + 1) (Nat.succ_lt_succ hj) sj
        rw [iterate_state_succ_some c fuel j s s1 ha]; exact hsj
  · rintro ⟨k1, rfl, h1, h2, h3⟩
    refine ⟨?_, h2, ?_⟩
    · rw [iterate_state_succ_some c fuel k1 s s1 ha]; exact h1
    · intro j hj sj hsj
      cases j with
      | zero =>
        simp only [iterate_state, Option.some.injEq] at hsj
        exact hsj ▸ h
      | succ j =>
        rw [iterate_state_succ_some c fuel j s s1 ha] at hsj
        exact h3 j (Nat.lt_of_succ_lt_succ hj) sj hsj

theorem first_stop_none {M : Type} (c : Ctx M) (fuel : Nat) (s : State M)
    (h : ¬ stops c s) (ha : advance c fuel s = none) (k : Nat) (sk : State M) :
    ¬ first_stop c fuel s k sk := by
  rintro ⟨h1, h2, _⟩
  cases k with
  | zero =>
    simp only [iterate_state, Option.some.injEq] at h1
    exact absurd (h1 ▸ h2) h
  | succ k =>
    rw [iterate_state_succ_none c fuel k s ha] at h1
    exact absurd h1 (by simp)

theorem outer_loop_succ {M : Type} (c : Ctx M) (fuel iters : Nat) (s : State M) :
    outer_loop c fuel (iters + 1) s =
      if stops c s then Outcome.returned (success_output c s)
      else match advance c fuel s with
        | none => Outcome.no_fuel
        | some s => outer_loop c fuel iters s := rfl

/-- The outer loop returns normally exactly at the first iteration below the
bound at which the stop condition holds, with the outputs of that iteration. -/
theorem outer_loop_returned_iff {M : Type} (c : Ctx M) (fuel : Nat) :
    ∀ (iters : Nat) (s : State M) (out : Caller),
      outer_loop c fuel iters s = Outcome.returned out ↔
        ∃ k, k < iters ∧ ∃ sk, first_stop c fuel s k sk ∧ out = success_output c sk := by
  intro iters
  induction iters with
  | zero =>
    intro s out
    constructor
    · intro h; exact absurd h (by simp [outer_loop])
    · rintro ⟨k, hk, _⟩; exact absurd hk (Nat.not_lt_zero k)
  | succ iters ih =>
    intro s out
    rw [outer_loop_succ]
    by_cases hs : stops c s
    · rw [if_pos hs]
      constructor
      · intro h
        simp only [Outcome.returned.injEq] at h
        exact ⟨0, Nat.succ_pos _, s, (first_stop_zero c fuel s hs 0 s).mpr ⟨rfl, rfl⟩, h.symm⟩
      · rintro ⟨k, _, sk, hf, hout⟩
        obtain ⟨_, rfl⟩ := (first_stop_zero c fuel s hs k sk).mp hf
        rw [hout]
    · rw [if_neg hs]
      cases ha : advance c fuel s with
      | none =>
        constructor
        · intro h; exact absurd h (by simp)
        · rintro ⟨k, _, sk, hf, _⟩
          exact absurd hf (first_stop_none c fuel s hs ha k sk)
      | some s1 =>
        show outer_loop c fuel iters s1 = Outcome.returned out ↔ _
        rw [ih s1 out]
        constructor
        · rintro ⟨k, hk, sk, hf, hout⟩
          exact ⟨k + 1, Nat.succ_lt_succ hk, sk,
            (first_stop_succ c fuel s s1 hs ha (k + 1) sk).mpr ⟨k, rfl, hf⟩, hout⟩
        · rintro ⟨k, hk, sk, hf, hout⟩
          obtain ⟨k1, rfl, hf1⟩ := (first_stop_succ c fuel s s1 hs ha k sk).mp hf
          exact ⟨k1, Nat.lt_of_succ_lt_succ hk, sk, hf1, hout⟩

/-- When no adaptation loop runs out of fuel and no iteration below the bound
meets the stop condition, the outer loop ends with the exception. -/
theorem outer_loop_thrown {M : Type} (c : Ctx M) (fuel : Nat) :
    ∀ (iters : Nat) (s : State M), outer_loop c fuel iters s ≠ Outcome.no_fuel →
      (∀ k, k < iters → ∀ sk, iterate_state c fuel k s = some sk → ¬ stops c sk) →
      outer_loop c fuel iters s = Outcome.thrown c.caller := by
  intro iters
  induction iters with
  | zero => intro s _ _; rfl
  | succ iters ih =>
    intro s hne hall
    rw [outer_loop_succ] at hne ⊢
    have hs : ¬ stops c s := hall 0 (Nat.succ_pos _) s rfl
    rw [if_neg hs] at hne ⊢
    cases ha : advance c fuel s with
    | none => rw [ha] at hne; exact absurd rfl hne
    | some s1 =>
      rw [ha] at hne
      show outer_loop c fuel iters s1 = _
      apply ih s1 hne
      intro k hk sk hsk
      apply hall (k + 1) (Nat.succ_lt_succ hk) sk
      rw [iterate_state_succ_some c fuel k s s1 ha]; exact hsk

/-- The exception is raised only when no iteration below the bound meets the
stop condition. -/
theorem outer_loop_thrown_only {M : Type} (c : Ctx M) (fuel : Nat) :
    ∀ (iters : Nat) (s : State M) (out : Caller),
      outer_loop c fuel iters s = Outcome.thrown out →
      out = c.caller
      ∧ ∀ k, k < iters → ∀ sk, iterate_state c fuel k s = some sk → ¬ stops c sk := by
  intro iters
  induction iters with
  | zero =>
    intro s out h
    simp only [outer_loop, Outcome.thrown.injEq] at h
    exact ⟨h.symm, fun k hk => absurd hk (Nat.not_lt_zero k)⟩
  | succ iters ih =>
    intro s out h
    rw [outer_loop_succ] at h
    by_cases hs : stops c s
    · rw [if_pos hs] at h; exact absurd h (by simp)
    · rw [if_neg hs] at h
      cases ha : advance c fuel s with
      | none => rw [ha] at h; exact absurd h (by simp)
      | some s1 =>
        rw [ha] at h
        obtain ⟨h1, h2⟩ := ih s1 out h
        refine ⟨h1, ?_⟩
        intro k hk sk hsk
        cases k with
        | zero =>
          simp only [iterate_state, Option.some.injEq] at hsk
          exact hsk ▸ hs
        | succ k =>
          rw [iterate_state_succ_some c fuel k s s1 ha] at hsk
          exact h2 k (Nat.lt_of_succ_lt_succ hk) sk hsk

/-! ## C1: the outputs on a normal return -/

/-- C1: whenever `operator()` returns normally, it does so in some outer iteration
`k < max_iter`, and the outputs are `x = x̂ₖ`, `z = ẑₖ` (the stored slack), `y` the
multiplier estimate computed from `g(x̂ₖ)` in that iteration, and
`err_z = g(x) − z` for the returned `x` and `z`. -/
theorem C1_outputs_on_return {M : Type} (lib : Lib M) (params : PANOCParams) (fuel : Nat)
    (problem : Problem) (x z y err_z Sig : vec) (ε : real_t) (out : Caller)
    (h : PANOCSolver lib params fuel problem x z y err_z Sig ε = Outcome.returned out) :
    ∃ k, k < params.max_iter ∧ ∃ sk : State M,
      iterate_state (init lib params problem x z y err_z Sig ε).1 fuel k
        (init lib params problem x z y err_z Sig ε).2 = some sk
      ∧ out.x = sk.x_hatₖ ∧ out.z = sk.z_hatₖ
      ∧ out.y = calc_y_hat
          (calc_z_hat problem (problem.g sk.x_hatₖ) (cwiseQuotient y Sig))
          (problem.g sk.x_hatₖ) y Sig
      ∧ out.err_z = vsub (problem.g out.x) out.z := by
  obtain ⟨k, hk, sk, hf, hout⟩ :=
    (outer_loop_returned_iff (init lib params problem x z y err_z Sig ε).1 fuel
      params.max_iter (init lib params problem x z y err_z Sig ε).2 out).mp h
  refine ⟨k, hk, sk, hf.1, ?_, ?_, ?_, ?_⟩ <;> rw [hout] <;> rfl

/-- Witness for C1 on `problem_eq` from `x₀ = [0, 0]` with `y = [1]`, `Σ = [4]`, `ε = 1/2`:
the call returns in iteration 1. -/
theorem C1_outputs_on_return_witness :
    PANOCSolver lib_ex (params_ex 10) 10 problem_eq [0, 0] [0] [1] [0] [4] (1 / 2)
      = Outcome.returned ⟨[2109 / 7840, 2109 / 7840], [0], [-831 / 980], [-1811 / 3920]⟩
    ∧ ∃ k, k < 10 ∧ ∃ sk : State LBFGS,
      iterate_state (init lib_ex (params_ex 10) problem_eq [0, 0] [0] [1] [0] [4]
          (1 / 2)).1 10 k
        (init lib_ex (params_ex 10) problem_eq [0, 0] [0] [1] [0] [4] (1 / 2)).2 = some sk
      ∧ [2109 / 7840, 2109 / 7840] = sk.x_hatₖ ∧ [0] = sk.z_hatₖ
      ∧ [-831 / 980] = calc_y_hat
          (calc_z_hat problem_eq (problem_eq.g sk.x_hatₖ) (cwiseQuotient [1] [4]))
          (problem_eq.g sk.x_hatₖ) [1] [4]
      ∧ [-1811 / 3920] = vsub (problem_eq.g [2109 / 7840, 2109 / 7840]) [0] :=
  ⟨by decide!,
   C1_outputs_on_return lib_ex (params_ex 10) 10 problem_eq [0, 0] [0] [1] [0] [4] (1 / 2)
     ⟨[2109 / 7840, 2109 / 7840], [0], [-831 / 980], [-1811 / 3920]⟩ (by decide!)⟩

/-! ## C2: success exactly at the first iteration meeting the stop condition -/

/-- C2: when no adaptation loop runs out of fuel, the call returns normally with
outputs `out` iff there is a first outer iteration `k < max_iter` whose measure
`εₖ = ‖(1/γ)rₖ + ∇ψ(x̂ₖ) − ∇ψ(xₖ)‖_∞` is at most `ε`, `out` being the outputs of that
iteration; if no iteration below `max_iter` has `εₖ ≤ ε` the call ends with the
exception, leaving `x₀ + h` in `x`; the exception is raised only then; and with
`max_iter = 0` the call always ends with the exception. -/
theorem C2_success_iff_first_stop {M : Type} (lib : Lib M) (params : PANOCParams) (fuel : Nat)
    (problem : Problem) (x z y err_z Sig : vec) (ε : real_t)
    (hfuel : PANOCSolver lib params fuel problem x z y err_z Sig ε ≠ Outcome.no_fuel) :
    ((∃ out : Caller,
        PANOCSolver lib params fuel problem x z y err_z Sig ε = Outcome.returned out) ↔
      ∃ k, k < params.max_iter ∧ ∃ sk : State M,
        iterate_state (init lib params problem x z y err_z Sig ε).1 fuel k
          (init lib params problem x z y err_z Sig ε).2 = some sk
        ∧ stop_measure_spec problem (cwiseQuotient y Sig) y Sig sk ≤ ε)
    ∧ (∀ out : Caller,
      PANOCSolver lib params fuel problem x z y err_z Sig ε = Outcome.returned out ↔
        ∃ k, k < params.max_iter ∧ ∃ sk : State M,
          (iterate_state (init lib params problem x z y err_z Sig ε).1 fuel k
              (init lib params problem x z y err_z Sig ε).2 = some sk
            ∧ stop_measure_spec problem (cwiseQuotient y Sig) y Sig sk ≤ ε
            ∧ ∀ j, j < k → ∀ sj : State M,
                iterate_state (init lib params problem x z y err_z Sig ε).1 fuel j
                  (init lib params problem x z y err_z Sig ε).2 = some sj →
                ¬ stop_measure_spec problem (cwiseQuotient y Sig) y Sig sj ≤ ε)
          ∧ out = success_output (init lib params problem x z y err_z Sig ε).1 sk)
    ∧ ((∀ k, k < params.max_iter → ∀ sk : State M,
          iterate_state (init lib params problem x z y err_z Sig ε).1 fuel k
            (init lib params problem x z y err_z Sig ε).2 = some sk →
          ¬ stop_measure_spec problem (cwiseQuotient y Sig) y Sig sk ≤ ε) →
        PANOCSolver lib params fuel problem x z y err_z Sig ε
          = Outcome.thrown ⟨vadd x (fd_step params x), z, y, err_z⟩)
    ∧ (∀ out : Caller,
        PANOCSolver lib params fuel problem x z y err_z Sig ε = Outcome.thrown out →
        ∀ k, k < params.max_iter → ∀ sk : State M,
          iterate_state (init lib params problem x z y err_z Sig ε).1 fuel k
            (init lib params problem x z y err_z Sig ε).2 = some sk →
          ¬ stop_measure_spec problem (cwiseQuotient y Sig) y Sig sk ≤ ε)
    ∧ (params.max_iter = 0 →
        PANOCSolver lib params fuel problem x z y err_z Sig ε
          = Outcome.thrown ⟨vadd x (fd_step params x), z, y, err_z⟩) := by
  refine ⟨?_, ?_, ?_, ?_, ?_⟩
  · constructor
    · rintro ⟨out, hout⟩
      obtain ⟨k, hk, sk, hf, _⟩ :=
        (outer_loop_returned_iff (init lib params problem x z y err_z Sig ε).1 fuel
          params.max_iter (init lib params problem x z y err_z Sig ε).2 out).mp hout
      exact ⟨k, hk, sk, hf.1, hf.2.1⟩
    · rintro ⟨k, hk, sk, hsk, hstop⟩
      cases hres : PANOCSolver lib params fuel problem x z y err_z Sig ε with
      | returned out => exact ⟨out, rfl⟩
      | thrown out =>
        exact absurd hstop
          ((outer_loop_thrown_only (init lib params problem x z y err_z Sig ε).1 fuel
            params.max_iter (init lib params problem x z y err_z Sig ε).2 out hres).2
            k hk sk hsk)
      | no_fuel => exact absurd hres hfuel
  · intro out
    exact outer_loop_returned_iff (init lib params problem x z y err_z Sig ε).1 fuel
      params.max_iter (init lib params problem x z y err_z Sig ε).2 out
  · intro hall
    exact outer_loop_thrown (init lib params problem x z y err_z Sig ε).1 fuel
      params.max_iter (init lib params problem x z y err_z Sig ε).2 hfuel hall
  · intro out hout
    exact (outer_loop_thrown_only (init lib params problem x z y err_z Sig ε).1 fuel
      params.max_iter (init lib params problem x z y err_z Sig ε).2 out hout).2
  · intro h0
    show outer_loop _ fuel params.max_iter _ = _
    rw [h0]
    rfl

/-- Witness for C2 on `problem_sq` from `x₀ = [5]` with `ε = 1e-8`: no adaptation loop
runs out of fuel, the call returns `x = [0]`, so a first iteration meeting the stop
condition exists below `max_iter = 10`. -/
theorem C2_success_iff_first_stop_witness :
    PANOCSolver lib_ex (params_ex 10) 10 problem_sq [5] [] [] [] [] (1 / 100000000)
      ≠ Outcome.no_fuel
    ∧ ∃ k, k < 10 ∧ ∃ sk : State LBFGS,
        (iterate_state (init lib_ex (params_ex 10) problem_sq [5] [] [] [] []
              (1 / 100000000)).1 10 k
            (init lib_ex (params_ex 10) problem_sq [5] [] [] [] [] (1 / 100000000)).2
            = some sk
          ∧ stop_measure_spec problem_sq (cwiseQuotient [] []) [] [] sk ≤ 1 / 100000000
          ∧ ∀ j, j < k → ∀ sj : State LBFGS,
              iterate_state (init lib_ex (params_ex 10) problem_sq [5] [] [] [] []
                  (1 / 100000000)).1 10 j
                (init lib_ex (params_ex 10) problem_sq [5] [] [] [] [] (1 / 100000000)).2
                = some sj →
              ¬ stop_measure_spec problem_sq (cwiseQuotient [] []) [] [] sj ≤ 1 / 100000000)
        ∧ (⟨[0], [], [], []⟩ : Caller)
            = success_output (init lib_ex (params_ex 10) problem_sq [5] [] [] [] []
                (1 / 100000000)).1 sk :=
  ⟨by decide!,
   ((C2_success_iff_first_stop lib_ex (params_ex 10) 10 problem_sq [5] [] [] [] []
      (1 / 100000000) (by decide!)).2.1 ⟨[0], [], [], []⟩).mp (by decide!)⟩

/-! ## C11: `calc_ŷ` componentwise -/

theorem zipWith_getElem?_some {α β γ : Type} (f : α → β → γ) :
    ∀ (a : List α) (b : List β) (i : Nat) (x : α) (y : β),
      a[i]? = some x → b[i]? = some y → (List.zipWith f a b)[i]? = some (f x y) := by
  intro a
  induction a with
  | nil => intro b i x y h; simp at h
  | cons a0 a ih =>
    intro b i x y ha hb
    cases b with
    | nil => simp at hb
    | cons b0 b =>
      cases i with
      | zero =>
        simp only [List.getElem?_cons_zero, Option.some.injEq] at ha hb
        simp [ha, hb]
      | succ i =>
        simp only [List.getElem?_cons_succ] at ha hb
        simp only [List.zipWith_cons_cons, List.getElem?_cons_succ]
        exact ih b i x y ha hb

/-- C11: `calc_ŷ` returns a vector whose component `i` is `Σᵢ·(g_xᵢ − ẑᵢ) + yᵢ` wherever
the four inputs have a component `i` (an elementwise product, each output
component reading only the components `i` of the inputs), and for inputs of equal
length the output has that length; the inputs are values and are not modified. -/
theorem C11_calc_y_hat_componentwise (z_hat g_x y Sig : vec) :
    (∀ (i : Nat) (a b c w : real_t),
        z_hat[i]? = some a → g_x[i]? = some b → y[i]? = some c → Sig[i]? = some w →
        (calc_y_hat z_hat g_x y Sig)[i]? = some (w * (b - a) + c))
    ∧ (z_hat.length = g_x.length → g_x.length = y.length → y.length = Sig.length →
        (calc_y_hat z_hat g_x y Sig).length = Sig.length) := by
  constructor
  · intro i a b c w ha hb hc hw
    unfold calc_y_hat vadd cwiseProduct vsub
    exact zipWith_getElem?_some _ _ _ i _ _
      (zipWith_getElem?_some _ _ _ i _ _ hw (zipWith_getElem?_some _ _ _ i _ _ hb ha)) hc
  · intro h1 h2 h3
    simp [calc_y_hat, vadd, cwiseProduct, vsub, h1, h2, h3]

/-- Witness for C11 at `ẑ = [1, 2]`, `g_x = [4, 0]`, `y = [1, 1]`, `Σ = [2, 3]`: component 1
is `3·(0 − 2) + 1 = −5`. -/
theorem C11_calc_y_hat_componentwise_witness :
    (calc_y_hat [1, 2] [4, 0] [1, 1] [2, 3])[1]? = some (3 * (0 - 2) + 1)
    ∧ (calc_y_hat [1, 2] [4, 0] [1, 1] [2, 3]).length = 2 :=
  ⟨(C11_calc_y_hat_componentwise [1, 2] [4, 0] [1, 1] [2, 3]).1 1 2 0 1 3 rfl rfl rfl rfl,
   (C11_calc_y_hat_componentwise [1, 2] [4, 0] [1, 1] [2, 3]).2 rfl rfl rfl⟩

/-! ## C12: the values of `τ` tried by the line search -/

/-- The logging loop returns what the plain loop returns, and its log grows by
the values `τ₀, τ₀/2, …, τ₀/2^j` up to the pass `j` of the returned candidate. -/
theorem line_search_loop_log_some {M : Type} (c : Ctx M) (s : State M) (dₖ : vec) :
    ∀ (fuel : Nat) (τ₀ : real_t) (log : List real_t) (cand : Candidate) (τ : real_t),
      line_search_loop c s dₖ fuel τ₀ = some (cand, τ) →
      ∃ j, j < fuel ∧ cand = ls_candidate c s dₖ (τ₀ / 2 ^ j)
        ∧ line_search_loop_log c s dₖ fuel τ₀ log
            = some ((cand, τ), log ++ (List.range (j + 1)).map (fun i => τ₀ / 2 ^ i))
        ∧ ∀ i, i < j → τ_min ≤ τ₀ / 2 ^ (i + 1) := by
  intro fuel
  induction fuel with
  | zero => intro τ₀ log cand τ h; exact absurd h (by simp [line_search_loop])
  | succ fuel ih =>
    intro τ₀ log cand τ h
    unfold line_search_loop at h
    unfold line_search_loop_log
    dsimp only at h ⊢
    split at h
    · rename_i hc
      obtain ⟨j, hj, hcand, hlog, hall⟩ := ih (τ₀ / 2) (log ++ [τ₀]) cand τ h
      refine ⟨j + 1, Nat.succ_lt_succ hj, by rw [hcand, halve_pow], ?_, ?_⟩
      · rw [if_pos hc, hlog, List.append_assoc]
        congr 2
        rw [List.range_succ_eq_map (j + 1), List.map_cons, List.map_map]
        simp only [pow_zero, div_one, List.singleton_append]
        congr 2
        apply List.map_congr_left
        intro i _
        simp only [Function.comp_apply]
        rw [halve_pow]
      · intro i hi
        cases i with
        | zero =>
          have := hc.2
          simpa using this
        | succ i =>
          have := hall i (Nat.lt_of_succ_lt_succ hi)
          rw [halve_pow] at this
          exact this
    · rename_i hc
      simp only [Option.some.injEq, Prod.mk.injEq] at h
      obtain ⟨h1, h2⟩ := h
      refine ⟨0, Nat.succ_pos _, by rw [← h1]; simp, ?_, ?_⟩
      · rw [if_neg hc, h1, h2]
        simp [List.range_succ]
      · intro i hi; exact absurd hi (Nat.not_lt_zero i)

/-- C12: whatever the oracle returns, the line search returns after evaluating the
candidates of `τ = 1, ½, ¼, …, 1/2^j` in that order and no others, for some `j < 40`,
so after at most 40 candidate evaluations; every `τ` it tries is at least
`τ_min = 1e-12`; and the logging loop returns the same candidate and `τ` as the
line search of the solver. -/
theorem C12_line_search_bounded {M : Type} (c : Ctx M) (s : State M) (dₖ : vec) :
    ∃ (res : Candidate × real_t) (j : Nat),
      line_search c s dₖ = some res
      ∧ line_search_loop_log c s dₖ 40 1 [] = some (res, halvings j)
      ∧ j < 40 ∧ (halvings j).length ≤ 40
      ∧ (∀ τ, τ ∈ halvings j → τ_min ≤ τ)
      ∧ τ_min = 1 / 1000000000000 := by
  obtain ⟨⟨cand, τ⟩, h⟩ := Option.isSome_iff_exists.mp (line_search_isSome c s dₖ)
  obtain ⟨j, hj, _, hlog, hall⟩ := line_search_loop_log_some c s dₖ 40 1 [] cand τ h
  refine ⟨(cand, τ), j, h, ?_, hj, ?_, ?_, rfl⟩
  · rw [hlog]; rfl
  · simp only [halvings, List.length_map, List.length_range]
    exact hj
  · intro t ht
    simp only [halvings, List.mem_map, List.mem_range] at ht
    obtain ⟨i, hi, rfl⟩ := ht
    cases i with
    | zero => unfold τ_min; norm_num
    | succ i => exact hall i (Nat.lt_of_succ_lt_succ hi)

/-! ## C13: the perturbation is not the zero vector -/

theorem fd_step_ge (params : PANOCParams) (x : vec) :
    ∀ u, u ∈ fd_step params x → params.Lipschitz.δ ≤ u := by
  intro u hu
  simp only [fd_step, cwiseMax, smul, List.map_map, List.mem_map, Function.comp_apply] at hu
  obtain ⟨a, _, rfl⟩ := hu
  exact le_max_right _ _

theorem squaredNorm_ge_sq (δ : real_t) (hδ : 0 < δ) : ∀ (v : vec), v ≠ [] →
    (∀ u, u ∈ v → δ ≤ u) → δ * δ ≤ squaredNorm v := by
  intro v
  induction v with
  | nil => intro h _; exact absurd rfl h
  | cons a t ih =>
    intro _ hge
    have ha : δ ≤ a := hge a (List.mem_cons_self _ _)
    have ht : 0 ≤ squaredNorm t := by
      cases t with
      | nil => simp [squaredNorm, dot]
      | cons b t2 =>
        have := ih (by simp) (fun u hu => hge u (List.mem_cons_of_mem _ hu))
        have h0 : 0 ≤ δ * δ := le_of_lt (mul_pos hδ hδ)
        linarith
    have e : squaredNorm (a :: t) = a * a + squaredNorm t := by
      simp [squaredNorm, dot]
    rw [e]
    have : δ * δ ≤ a * a := mul_le_mul ha ha (le_of_lt hδ) (le_trans (le_of_lt hδ) ha)
    linarith

theorem isqrt_iter_pos (n : Nat) (hn : 1 ≤ n) :
    ∀ (k x : Nat), 1 ≤ x → 1 ≤ isqrt_iter n k x := by
  intro k
  induction k with
  | zero => intro x hx; exact hx
  | succ k ih =>
    intro x hx
    unfold isqrt_iter
    dsimp only
    split
    · apply ih
      rcases Nat.eq_or_lt_of_le hx with h1 | h2
      · rw [← h1, Nat.div_one]
        omega
      · have : 2 ≤ x + n / x := Nat.le_trans h2 (Nat.le_add_right _ _)
        omega
    · exact hx

theorem isqrt_pos (n : Nat) (hn : 1 ≤ n) : 1 ≤ isqrt n := by
  unfold isqrt
  split
  · exact hn
  · exact isqrt_iter_pos n hn 200 n hn

theorem sqrt_ref_ne_zero (q : real_t) (hq : 0 < q) : sqrt_ref q ≠ 0 := by
  unfold sqrt_ref
  have hnum : 1 ≤ q.num.toNat := by
    have : 0 < q.num := Rat.num_pos.mpr hq
    omega
  have hden : 1 ≤ q.den := q.den_pos
  have h1 : (0 : ℚ) < (isqrt q.num.toNat : ℚ) := by
    exact_mod_cast isqrt_pos _ hnum
  have h2 : (0 : ℚ) < (isqrt q.den : ℚ) := by
    exact_mod_cast isqrt_pos _ hden
  exact ne_of_gt (div_pos h1 h2)

theorem sqrt_underflow_ne_zero (q : real_t) (hq : 1 / 2 ^ 1075 ≤ q) : sqrt_underflow q ≠ 0 := by
  unfold sqrt_underflow
  rw [if_neg (not_lt.mpr hq)]
  exact sqrt_ref_ne_zero q (lt_of_lt_of_le (by positivity) hq)

/-- C13 (as stated, refuted): with `ε_rel = δ_abs = 1e-200`, both positive, `n = 1` and
`x = [0]`, the perturbation is `h = [1e-200]`, every component of it is at least
`δ_abs`, and yet `‖h‖`, the divisor of source line 159, is `0` for the square root
that underflows as binary64 does: `‖h‖² = 1e-400` is below the least positive
binary64 number. -/
theorem C13_counterexample :
    0 < (params_tiny 100).Lipschitz.ε ∧ 0 < (params_tiny 100).Lipschitz.δ
    ∧ 1 ≤ ([0] : vec).length
    ∧ fd_step (params_tiny 100) [0] = [1 / 10 ^ 200]
    ∧ (∀ u, u ∈ fd_step (params_tiny 100) [0] → (params_tiny 100).Lipschitz.δ ≤ u)
    ∧ norm sqrt_underflow (fd_step (params_tiny 100) [0]) = 0 := by
  refine ⟨by decide!, by decide!, by decide, by decide!, fd_step_ge _ _, by decide!⟩

/-- C13 (amended): if `ε_rel > 0`, `δ_abs > 0` and `n ≥ 1`, then for every starting point
`x` the perturbation `h` has the length of `x`, every component of `h` is at least
`δ_abs`, so `h` is not the zero vector; and `‖h‖`, the divisor in the Lipschitz
estimate, is nonzero for every square root that is nonzero from a threshold `θ`
on, provided `θ ≤ δ_abs²`. -/
theorem C13_fd_step_divisor (params : PANOCParams) (x : vec)
    (_hε : 0 < params.Lipschitz.ε) (hδ : 0 < params.Lipschitz.δ) (hn : 1 ≤ x.length) :
    (fd_step params x).length = x.length
    ∧ (∀ u, u ∈ fd_step params x → params.Lipschitz.δ ≤ u)
    ∧ fd_step params x ≠ List.replicate x.length 0
    ∧ ∀ (sqrt : real_t → real_t) (θ : real_t), (∀ q, θ ≤ q → sqrt q ≠ 0) →
        θ ≤ params.Lipschitz.δ * params.Lipschitz.δ →
        norm sqrt (fd_step params x) ≠ 0 := by
  have hlen : (fd_step params x).length = x.length := by
    simp [fd_step, cwiseMax, smul]
  have hne : fd_step params x ≠ [] := by
    intro h
    rw [h] at hlen
    simp only [List.length_nil] at hlen
    omega
  have hpos : ∀ u, u ∈ fd_step params x → 0 < u :=
    fun u hu => lt_of_lt_of_le hδ (fd_step_ge params x u hu)
  have hsq := squaredNorm_ge_sq _ hδ _ hne (fd_step_ge params x)
  refine ⟨hlen, fd_step_ge params x, ?_, fun sqrt θ hs hθ => hs _ (le_trans hθ hsq)⟩
  intro h0
  obtain ⟨u, t, hut⟩ := List.exists_cons_of_ne_nil hne
  have hu : u ∈ fd_step params x := by rw [hut]; exact List.mem_cons_self _ _
  have hz : u ∈ List.replicate x.length (0 : ℚ) := by rw [← h0]; exact hu
  have := (List.mem_replicate.mp hz).2
  exact absurd (hpos u hu) (by rw [this]; exact lt_irrefl 0)

/-- Witness for the amended C13 at `x = [-10, 0, 5]` with `ε_rel = 1/5`, `δ_abs = 1`:
`h = [1, 1, 1]`, and the norm computed with the underflowing square root, whose
threshold `2⁻¹⁰⁷⁵` is below `δ_abs² = 1`, is nonzero. -/
theorem C13_fd_step_divisor_witness :
    fd_step (params_ex 10) [-10, 0, 5] = [1, 1, 1]
    ∧ norm sqrt_underflow (fd_step (params_ex 10) [-10, 0, 5]) ≠ 0 :=
  ⟨by decide!,
   (C13_fd_step_divisor (params_ex 10) [-10, 0, 5] (by decide!) (by decide!)
      (by decide)).2.2.2 sqrt_underflow (1 / 2 ^ 1075) sqrt_underflow_ne_zero (by decide!)⟩

/-! ## C14 and C15: range and idempotence of the projection -/

theorem zipWith3_getElem?_some {α β γ δ : Type} (f : α → β → γ → δ) :
    ∀ (as : List α) (bs : List β) (cs : List γ) (i : Nat) (x : α) (y : β) (z : γ),
      as[i]? = some x → bs[i]? = some y → cs[i]? = some z →
      (List.zipWith3 f as bs cs)[i]? = some (f x y z) := by
  intro as
  induction as with
  | nil => intro bs cs i x y z h; simp at h
  | cons a0 as ih =>
    intro bs cs i x y z ha hb hc
    cases bs with
    | nil => simp at hb
    | cons b0 bs =>
      cases cs with
      | nil => simp at hc
      | cons c0 cs =>
        cases i with
        | zero =>
          simp only [List.getElem?_cons_zero, Option.some.injEq] at ha hb hc
          simp [List.zipWith3, ha, hb, hc]
        | succ i =>
          simp only [List.getElem?_cons_succ] at ha hb hc
          simp only [List.zipWith3, List.getElem?_cons_succ]
          exact ih bs cs i x y z ha hb hc

theorem zipWith3_length {α β γ δ : Type} (f : α → β → γ → δ) :
    ∀ (a : List α) (b : List β) (c : List γ), a.length = b.length → a.length = c.length →
      (List.zipWith3 f a b c).length = a.length := by
  intro a
  induction a with
  | nil => intro b c _ _; cases b <;> cases c <;> rfl
  | cons a0 a ih =>
    intro b c hb hc
    cases b with
    | nil => simp at hb
    | cons b0 b =>
      cases c with
      | nil => simp at hc
      | cons c0 c =>
        simp only [List.length_cons, Nat.add_right_cancel_iff] at hb hc
        simp only [List.zipWith3, List.length_cons, ih b c hb hc]

theorem clamp_within (v : real_t) (lb ub : Option ℚ) (h : bounds_ordered lb ub) :
    within (clamp v lb ub) lb ub := by
  cases lb with
  | none =>
    cases ub with
    | none => exact ⟨trivial, trivial⟩
    | some u => exact ⟨trivial, min_le_right _ _⟩
  | some l =>
    cases ub with
    | none => exact ⟨le_max_right _ _, trivial⟩
    | some u =>
      have hlu : l ≤ u := h
      exact ⟨le_min (le_max_right _ _) hlu, min_le_right _ _⟩

theorem clamp_of_within (v : real_t) (lb ub : Option ℚ) (h : within v lb ub) :
    clamp v lb ub = v := by
  cases lb with
  | none =>
    cases ub with
    | none => rfl
    | some u => exact min_eq_left h.2
  | some l =>
    cases ub with
    | none => exact max_eq_left h.1
    | some u =>
      show min (max v l) u = v
      rw [max_eq_left h.1]
      exact min_eq_left h.2

theorem clamp_idem (v : real_t) (lb ub : Option ℚ) :
    clamp (clamp v lb ub) lb ub = clamp v lb ub := by
  cases lb with
  | none =>
    cases ub with
    | none => rfl
    | some u =>
      show min (min v u) u = min v u
      exact min_eq_left (min_le_right _ _)
  | some l =>
    cases ub with
    | none =>
      show max (max v l) l = max v l
      exact max_eq_left (le_max_right _ _)
    | some u =>
      show min (max (min (max v l) u) l) u = min (max v l) u
      rcases le_total (max v l) u with h | h
      · rw [min_eq_left h, max_eq_left (le_max_right v l), min_eq_left h]
      · rw [min_eq_right h, min_eq_right (le_max_left u l)]

theorem project_idem_lists : ∀ (v : vec) (lb ub : List (Option ℚ)),
    List.zipWith3 clamp (List.zipWith3 clamp v lb ub) lb ub = List.zipWith3 clamp v lb ub := by
  intro v
  induction v with
  | nil => intro lb ub; cases lb <;> cases ub <;> rfl
  | cons a t ih =>
    intro lb ub
    cases lb with
    | nil => cases ub <;> rfl
    | cons l lb =>
      cases ub with
      | nil => rfl
      | cons u ub =>
        simp only [List.zipWith3, clamp_idem, ih lb ub]

theorem project_length (v : vec) (S : Box) (h1 : v.length = S.lowerbound.length)
    (h2 : v.length = S.upperbound.length) : (project v S).length = v.length :=
  zipWith3_length clamp v _ _ h1 h2

theorem project_in_box (v : vec) (S : Box) (h1 : v.length = S.lowerbound.length)
    (h2 : v.length = S.upperbound.length) (hS : S.ordered) : in_box S (project v S) := by
  have hlen := project_length v S h1 h2
  refine ⟨by rw [hlen, h1], by rw [hlen, h2], ?_⟩
  intro i a lb ub ha hlb hub
  have hi : i < v.length := by
    have := (List.getElem?_eq_some_iff.mp ha).1
    rw [hlen] at this
    exact this
  have hx : v[i]? = some (v.get ⟨i, hi⟩) := by
    rw [List.getElem?_eq_getElem hi]
    rfl
  have := zipWith3_getElem?_some clamp v _ _ i _ _ _ hx hlb hub
  unfold project at ha
  rw [this] at ha
  simp only [Option.some.injEq] at ha
  rw [← ha]
  exact clamp_within _ lb ub (hS i lb ub hlb hub)

theorem project_of_in_box (v : vec) (S : Box) (h : in_box S v) : project v S = v := by
  obtain ⟨h1, h2, h3⟩ := h
  apply List.ext_getElem?
  intro i
  by_cases hi : i < v.length
  · have hx : v[i]? = some (v.get ⟨i, hi⟩) := by
      rw [List.getElem?_eq_getElem hi]
      rfl
    have hl : S.lowerbound[i]? = some (S.lowerbound.get ⟨i, h1 ▸ hi⟩) := by
      rw [List.getElem?_eq_getElem (h1 ▸ hi)]
      rfl
    have hu : S.upperbound[i]? = some (S.upperbound.get ⟨i, h2 ▸ hi⟩) := by
      rw [List.getElem?_eq_getElem (h2 ▸ hi)]
      rfl
    unfold project
    rw [zipWith3_getElem?_some clamp v _ _ i _ _ _ hx hl hu, hx,
      clamp_of_within _ _ _ (h3 i _ _ _ hx hl hu)]
  · have hlen := project_length v S h1 h2
    rw [List.getElem?_eq_none (by rw [hlen]; exact Nat.le_of_not_lt hi),
      List.getElem?_eq_none (Nat.le_of_not_lt hi)]

theorem box_ex_ordered : box_ex.ordered := by
  intro i lb ub hl hu
  rcases i with _ | _ | _ | i <;> simp [box_ex] at hl hu <;> subst hl <;> subst hu <;>
    simp [bounds_ordered]

/-- C14: for a box `D` with `lb ≤ ub` componentwise and `g`, `Σ⁻¹y` of its dimension, the
slack written by `calc_ẑ` lies in the box, `lb ≤ ẑ ≤ ub` componentwise; component `i` is
the clamp of `gᵢ + (Σ⁻¹y)ᵢ`, which with an infinite lower bound is only cut from above
(never raised), with an infinite upper bound is only cut from below (never
lowered), and with both bounds infinite is `gᵢ + (Σ⁻¹y)ᵢ` itself. -/
theorem C14_slack_in_box (p : Problem) (g Sig_inv_y : vec)
    (hl : (vadd g Sig_inv_y).length = p.D.lowerbound.length)
    (hu : (vadd g Sig_inv_y).length = p.D.upperbound.length) (hD : p.D.ordered) :
    in_box p.D (calc_z_hat p g Sig_inv_y)
    ∧ ∀ (i : Nat) (b e : real_t) (lb ub : Option ℚ),
        g[i]? = some b → Sig_inv_y[i]? = some e →
        p.D.lowerbound[i]? = some lb → p.D.upperbound[i]? = some ub →
        (calc_z_hat p g Sig_inv_y)[i]? = some (clamp (b + e) lb ub)
        ∧ within (clamp (b + e) lb ub) lb ub
        ∧ (lb = none → clamp (b + e) lb ub
            = match ub with
              | none => b + e
              | some u => min (b + e) u)
        ∧ (ub = none → clamp (b + e) lb ub
            = match lb with
              | none => b + e
              | some l => max (b + e) l)
        ∧ (lb = none → ub = none → (calc_z_hat p g Sig_inv_y)[i]? = some (b + e)) := by
  refine ⟨project_in_box _ _ hl hu hD, ?_⟩
  intro i b e lb ub hb he hlb hub
  have hv : (vadd g Sig_inv_y)[i]? = some (b + e) :=
    zipWith_getElem?_some _ g Sig_inv_y i b e hb he
  have hz : (calc_z_hat p g Sig_inv_y)[i]? = some (clamp (b + e) lb ub) :=
    zipWith3_getElem?_some clamp _ _ _ i _ _ _ hv hlb hub
  refine ⟨hz, clamp_within _ lb ub (hD i lb ub hlb hub), ?_, ?_, ?_⟩
  · intro h; subst h; cases ub <;> rfl
  · intro h; subst h; cases lb <;> rfl
  · intro h1 h2; subst h1; subst h2; exact hz

/-- Witness for C14 on the box `[0, 1] × (−∞, 2] × ℝ` with `g = [3, 5, -4]` and
`Σ⁻¹y = [1, 1, 1]`: the slack is `[1, 2, -3]`. -/
theorem C14_slack_in_box_witness :
    in_box box_ex (calc_z_hat { problem_sq with D := box_ex } [3, 5, -4] [1, 1, 1])
    ∧ calc_z_hat { problem_sq with D := box_ex } [3, 5, -4] [1, 1, 1] = [1, 2, -3] :=
  ⟨(C14_slack_in_box { problem_sq with D := box_ex } [3, 5, -4] [1, 1, 1] rfl rfl
      box_ex_ordered).1,
   by decide!⟩

/-- C15: projection is the identity on the points of the box, `project(v, S) = v`
whenever `lb ≤ v ≤ ub`; projecting twice is projecting once, for every `v` and every
box; and `calc_ẑ` returns `g + Σ⁻¹y` unchanged whenever that vector lies in `D`. -/
theorem C15_projection_idempotent (S : Box) (v : vec) (p : Problem) (g Sig_inv_y : vec) :
    (in_box S v → project v S = v)
    ∧ project (project v S) S = project v S
    ∧ (in_box p.D (vadd g Sig_inv_y) → calc_z_hat p g Sig_inv_y = vadd g Sig_inv_y) :=
  ⟨project_of_in_box v S, project_idem_lists v _ _, project_of_in_box _ p.D⟩

theorem box_ex_contains : in_box box_ex [1 / 2, 1, 7] := by
  refine ⟨rfl, rfl, ?_⟩
  intro i a lb ub ha hl hu
  rcases i with _ | _ | _ | i <;> simp [box_ex] at ha hl hu <;> subst ha <;> subst hl <;>
    subst hu <;> constructor <;> norm_num

/-- Witness for C15 on the box `[0, 1] × (−∞, 2] × ℝ`: the point `[1/2, 1, 7]` lies in
the box and is left unchanged, also as `g + Σ⁻¹y` with `g = [0, 0, 6]`,
`Σ⁻¹y = [1/2, 1, 1]`. -/
theorem C15_projection_idempotent_witness :
    in_box box_ex [1 / 2, 1, 7]
    ∧ project [1 / 2, 1, 7] box_ex = [1 / 2, 1, 7]
    ∧ calc_z_hat { problem_sq with D := box_ex } [0, 0, 6] [1 / 2, 1, 1]
        = vadd [0, 0, 6] [1 / 2, 1, 1] :=
  ⟨box_ex_contains,
   (C15_projection_idempotent box_ex [1 / 2, 1, 7] { problem_sq with D := box_ex }
      [0, 0, 6] [1 / 2, 1, 1]).1 box_ex_contains,
   (C15_projection_idempotent box_ex [1 / 2, 1, 7] { problem_sq with D := box_ex }
      [0, 0, 6] [1 / 2, 1, 1]).2.2
      (by
        have e : vadd [0, 0, 6] [1 / 2, 1, 1] = [1 / 2, 1, 7] := by decide!
        show in_box box_ex (vadd [0, 0, 6] [1 / 2, 1, 1])
        rw [e]
        exact box_ex_contains)⟩

/-! ## C17: the returned slack -/

/-- C17 (code evaluated at the failing input): on `problem_id` (`f(x) = x²`, `g(x) = x`,
`D = ℝ`) from `x₀ = [5]` with `y = [0]`, `Σ = [1]`, `ε = 1` the call returns in iteration 0
with `x = [1/4]`, `z = [5]`, `y = [0]`, `err_z = [-19/4]`: the returned `z` is the slack at `x₀`,
the slack at the returned `x` is `[1/4]`, and `Σ∘err_z + y_in = [-19/4]` is not the
returned `y`. -/
theorem C17_returned_slack_is_stale :
    PANOCSolver lib_ex (params_ex 10) 10 problem_id [5] [0] [0] [0] [1] 1
      = Outcome.returned ⟨[1 / 4], [5], [0], [-19 / 4]⟩
    ∧ calc_z_hat problem_id (problem_id.g [5]) (cwiseQuotient [0] [1]) = [5]
    ∧ calc_z_hat problem_id (problem_id.g [1 / 4]) (cwiseQuotient [0] [1]) = [1 / 4]
    ∧ vadd (cwiseProduct [1] [-19 / 4]) [0] = [-19 / 4] := by
  decide!

/-! ## C18: the invariant of the outer iteration -/

theorem grad_consistent_init {M : Type} (lib : Lib M) (params : PANOCParams)
    (problem : Problem) (x z y err_z Sig : vec) (ε : real_t) :
    grad_consistent (init lib params problem x z y err_z Sig ε).1
      (init lib params problem x z y err_z Sig ε).2 :=
  rfl

theorem grad_consistent_advance {M : Type} (c : Ctx M) (fuel : Nat) (s s2 : State M)
    (h : advance c fuel s = some s2) : grad_consistent c s2 := by
  obtain ⟨r, cand, τ, _, hl, hs2⟩ := advance_some c fuel s s2 h
  obtain ⟨j, _, hcand, _, _, _⟩ := line_search_loop_some c r.1 _ 40 1 cand τ hl
  rw [hs2, hcand]
  rfl

theorem grad_consistent_reachable {M : Type} (lib : Lib M) (params : PANOCParams)
    (problem : Problem) (x z y err_z Sig : vec) (ε : real_t) (fuel k : Nat) (sk : State M)
    (h : iterate_state (init lib params problem x z y err_z Sig ε).1 fuel k
      (init lib params problem x z y err_z Sig ε).2 = some sk) :
    grad_consistent (init lib params problem x z y err_z Sig ε).1 sk :=
  iterate_state_induct _ fuel (grad_consistent _)
    (fun a b _ hab => grad_consistent_advance _ fuel a b hab) k _ sk
    (grad_consistent_init lib params problem x z y err_z Sig ε) h

/-- C18: at the start of every outer iteration `k` of a solve, and after any number `j`
of passes through the adaptation body in that iteration, the stored gradient is
`∇f(xₖ) + grad_g(xₖ, ŷ(xₖ))`, `x̂ₖ = project(xₖ − γ·grad_ψₖ, C)` for the current `γ`,
`rₖ = xₖ − x̂ₖ`, and the cached scalars are `⟨grad_ψₖ, rₖ⟩` and `‖rₖ‖²`. -/
theorem C18_outer_loop_invariant {M : Type} (lib : Lib M) (params : PANOCParams)
    (problem : Problem) (x z y err_z Sig : vec) (ε : real_t) (fuel k : Nat) (sk : State M)
    (h : iterate_state (init lib params problem x z y err_z Sig ε).1 fuel k
      (init lib params problem x z y err_z Sig ε).2 = some sk) :
    (sk.grad_ψₖ = vadd (problem.grad_f sk.xₖ)
        (problem.grad_g sk.xₖ
          (calc_y_hat (calc_z_hat problem (problem.g sk.xₖ) (cwiseQuotient y Sig))
            (problem.g sk.xₖ) y Sig))
      ∧ sk.x_hatₖ = project (vsub sk.xₖ (smul sk.γ sk.grad_ψₖ)) problem.C
      ∧ sk.rₖ = vsub sk.xₖ sk.x_hatₖ
      ∧ sk.grad_ψₖ_rₖ = dot sk.grad_ψₖ sk.rₖ
      ∧ sk.norm_sq_rₖ = squaredNorm sk.rₖ)
    ∧ ∀ (j : Nat) (r : State M),
        r = (adapt_iter (init lib params problem x z y err_z Sig ε).1 j
              (adapt_entry (init lib params problem x z y err_z Sig ε).1 sk)).1 →
        r.xₖ = sk.xₖ
        ∧ r.grad_ψₖ = vadd (problem.grad_f r.xₖ)
            (problem.grad_g r.xₖ
              (calc_y_hat (calc_z_hat problem (problem.g r.xₖ) (cwiseQuotient y Sig))
                (problem.g r.xₖ) y Sig))
        ∧ r.x_hatₖ = project (vsub r.xₖ (smul r.γ r.grad_ψₖ)) problem.C
        ∧ r.rₖ = vsub r.xₖ r.x_hatₖ
        ∧ r.grad_ψₖ_rₖ = dot r.grad_ψₖ r.rₖ
        ∧ r.norm_sq_rₖ = squaredNorm r.rₖ := by
  have hg := grad_consistent_reachable lib params problem x z y err_z Sig ε fuel k sk h
  have hc := gradient_step_consistent_reachable lib params problem x z y err_z Sig ε fuel k sk h
  refine ⟨⟨hg, hc⟩, ?_⟩
  intro j r hr
  obtain ⟨f1, f2, _, _, _, _, _⟩ :=
    adapt_iter_fields (init lib params problem x z y err_z Sig ε).1 j
      (adapt_entry (init lib params problem x z y err_z Sig ε).1 sk)
  have hcj := (adapt_iter_consistent (init lib params problem x z y err_z Sig ε).1 j
      (adapt_entry (init lib params problem x z y err_z Sig ε).1 sk)).1 (Or.inr hc)
  rw [← hr] at f1 f2 hcj
  have hx : r.xₖ = sk.xₖ := f1
  have hgr : r.grad_ψₖ = sk.grad_ψₖ := f2
  refine ⟨hx, ?_, hcj⟩
  rw [hgr, hx]
  exact hg

/-- Witness for C18 on `problem_wall` from `x₀ = [0]`: the state at the start of outer
iteration 1 exists and satisfies the invariant. -/
theorem C18_outer_loop_invariant_witness :
    ∃ sk : State LBFGS,
      iterate_state
        (init lib_ex (params_wall 10) problem_wall [0] [] [] [] [] (1 / 100000000)).1 10 1
        (init lib_ex (params_wall 10) problem_wall [0] [] [] [] [] (1 / 100000000)).2 = some sk
      ∧ sk.x_hatₖ = project (vsub sk.xₖ (smul sk.γ sk.grad_ψₖ)) problem_wall.C
      ∧ sk.rₖ = vsub sk.xₖ sk.x_hatₖ := by
  have hs : (iterate_state
      (init lib_ex (params_wall 10) problem_wall [0] [] [] [] [] (1 / 100000000)).1 10 1
      (init lib_ex (params_wall 10) problem_wall [0] [] [] [] [] (1 / 100000000)).2).isSome
      = true := by decide!
  obtain ⟨sk, hsk⟩ := Option.isSome_iff_exists.mp hs
  have h := C18_outer_loop_invariant lib_ex (params_wall 10) problem_wall [0] [] [] [] []
    (1 / 100000000) 10 1 sk hsk
  exact ⟨sk, hsk, h.1.2.1, h.1.2.2.1⟩

/-! ## C20: the caller variables when the exception is raised -/

theorem smul_one (v : vec) : smul 1 v = v := by
  unfold smul
  simp

theorem LBFGS_apply_empty (l : LBFGS) (h : l.hist = []) (v : vec) : l.apply 1 v = v := by
  unfold LBFGS.apply
  rw [h]
  simp only [LBFGS.first_pass, LBFGS.second_pass]
  exact smul_one v

/-- With `d = r = x − x̂` every candidate `x − (1 − τ)·r − τ·d` is `x̂`. -/
theorem candidate_eq_hat (τ : real_t) : ∀ (x xh : vec), xh.length ≤ x.length →
    vsub (vsub x (smul (1 - τ) (vsub x xh))) (smul τ (vsub x xh)) = xh := by
  intro x
  induction x with
  | nil =>
    intro xh h
    cases xh with
    | nil => rfl
    | cons b t => simp at h
  | cons a t ih =>
    intro xh h
    cases xh with
    | nil => simp [vsub, smul]
    | cons b u =>
      simp only [List.length_cons, Nat.add_le_add_iff_right] at h
      have := ih u h
      simp only [vsub, smul, List.zipWith_cons_cons, List.map_cons] at this ⊢
      rw [this]
      congr 1
      ring

theorem zipWith3_length_le {α β γ δ : Type} (f : α → β → γ → δ) :
    ∀ (as : List α) (bs : List β) (cs : List γ),
      (List.zipWith3 f as bs cs).length ≤ as.length := by
  intro as
  induction as with
  | nil => intro bs cs; simp [List.zipWith3]
  | cons a0 as ih =>
    intro bs cs
    cases bs with
    | nil => simp [List.zipWith3]
    | cons b0 bs =>
      cases cs with
      | nil => simp [List.zipWith3]
      | cons c0 cs =>
        simp only [List.zipWith3, List.length_cons, Nat.add_le_add_iff_right]
        exact ih bs cs

theorem hat_length_le {M : Type} (c : Ctx M) (s : State M)
    (h : s.x_hatₖ = project (vsub s.xₖ (smul s.γ s.grad_ψₖ)) c.problem.C) :
    s.x_hatₖ.length ≤ s.xₖ.length := by
  rw [h]
  unfold project
  refine Nat.le_trans (zipWith3_length_le clamp _ _ _) ?_
  simp only [vsub, List.length_zipWith]
  exact Nat.min_le_left _ _

theorem empty_memory_step (c : Ctx LBFGS) (happly : c.lib.lbfgs_apply = LBFGS.apply)
    (r : State LBFGS) (hh : r.lbfgs.hist = []) (hc : gradient_step_consistent c r) :
    c.lib.lbfgs_apply r.lbfgs 1 r.rₖ = r.rₖ
    ∧ ∀ τ, (ls_candidate c r (c.lib.lbfgs_apply r.lbfgs 1 r.rₖ) τ).x_next = r.x_hatₖ := by
  have hd : c.lib.lbfgs_apply r.lbfgs 1 r.rₖ = r.rₖ := by
    rw [happly]
    exact LBFGS_apply_empty r.lbfgs hh r.rₖ
  refine ⟨hd, ?_⟩
  intro τ
  rw [hd]
  show vsub (vsub r.xₖ (smul (1 - τ) r.rₖ)) (smul τ r.rₖ) = r.x_hatₖ
  rw [hc.2.1]
  exact candidate_eq_hat τ r.xₖ r.x_hatₖ (hat_length_le c r hc.1)

/-- C19: with the L-BFGS memory of the spec (`reset` clears the history, `apply` on an
empty history returns `scale·v`, a new memory is empty): each pass through the
adaptation body halves `γ` and resets the memory, and nothing else in an outer
iteration changes `γ`; so after `j ≥ 1` passes in any outer iteration, and after any
number of passes in iteration 0, `apply(1, rₖ)` returns `rₖ` and the candidate
`xₖ − (1−τ)rₖ − τdₖ` is `x̂ₖ` for every `τ`. -/
theorem C19_reset_gives_gradient_step (lib : Lib LBFGS)
    (hnew : ∀ n mem, (lib.lbfgs_new n mem).hist = [])
    (hreset : lib.lbfgs_reset = LBFGS.reset) (happly : lib.lbfgs_apply = LBFGS.apply)
    (params : PANOCParams) (problem : Problem) (x z y err_z Sig : vec) (ε : real_t) :
    (∀ s : State LBFGS,
        (adapt_body (init lib params problem x z y err_z Sig ε).1 s).1.γ = s.γ / 2
        ∧ (adapt_body (init lib params problem x z y err_z Sig ε).1 s).1.lbfgs.hist = []
        ∧ (adapt_entry (init lib params problem x z y err_z Sig ε).1 s).1.γ = s.γ
        ∧ ∀ cand τ,
            (advance_step (init lib params problem x z y err_z Sig ε).1 s cand τ).γ = s.γ)
    ∧ (∀ (s : State LBFGS) (j : Nat) (r : State LBFGS), 0 < j →
        r = (adapt_iter (init lib params problem x z y err_z Sig ε).1 j
              (adapt_entry (init lib params problem x z y err_z Sig ε).1 s)).1 →
        lib.lbfgs_apply r.lbfgs 1 r.rₖ = r.rₖ
        ∧ ∀ τ, (ls_candidate (init lib params problem x z y err_z Sig ε).1 r
                  (lib.lbfgs_apply r.lbfgs 1 r.rₖ) τ).x_next = r.x_hatₖ)
    ∧ (∀ (j : Nat) (r : State LBFGS),
        r = (adapt_iter (init lib params problem x z y err_z Sig ε).1 j
              (adapt_entry (init lib params problem x z y err_z Sig ε).1
                (init lib params problem x z y err_z Sig ε).2)).1 →
        lib.lbfgs_apply r.lbfgs 1 r.rₖ = r.rₖ
        ∧ ∀ τ, (ls_candidate (init lib params problem x z y err_z Sig ε).1 r
                  (lib.lbfgs_apply r.lbfgs 1 r.rₖ) τ).x_next = r.x_hatₖ) := by
  have hbody : ∀ s : State LBFGS,
      (adapt_body (init lib params problem x z y err_z Sig ε).1 s).1.lbfgs.hist = [] := by
    intro s
    show (lib.lbfgs_reset s.lbfgs).hist = []
    rw [hreset]
    rfl
  refine ⟨fun s => ⟨rfl, hbody s, rfl, fun _ _ => rfl⟩, ?_, ?_⟩
  · intro s j r hj hr
    cases j with
    | zero => exact absurd hj (Nat.lt_irrefl 0)
    | succ j =>
      rw [adapt_iter_succ] at hr
      rw [hr]
      exact empty_memory_step _ happly _ (hbody _) (adapt_body_consistent _ _).1
  · intro j r hr
    cases j with
    | zero =>
      rw [hr]
      exact empty_memory_step _ happly _ (hnew _ _)
        (gradient_step_consistent_init lib params problem x z y err_z Sig ε)
    | succ j =>
      rw [adapt_iter_succ] at hr
      rw [hr]
      exact empty_memory_step _ happly _ (hbody _) (adapt_body_consistent _ _).1

/-- Witness for C19 on `problem_wall` from `x₀ = [0]` with the concrete library: in outer
iteration 0 after two passes through the adaptation body the direction is `rₖ`. -/
theorem C19_reset_gives_gradient_step_witness :
    lib_ex.lbfgs_apply
      (adapt_iter (init lib_ex (params_wall 10) problem_wall [0] [] [] [] []
          (1 / 100000000)).1 2
        (adapt_entry (init lib_ex (params_wall 10) problem_wall [0] [] [] [] []
            (1 / 100000000)).1
          (init lib_ex (params_wall 10) problem_wall [0] [] [] [] []
            (1 / 100000000)).2)).1.lbfgs 1
      (adapt_iter (init lib_ex (params_wall 10) problem_wall [0] [] [] [] []
          (1 / 100000000)).1 2
        (adapt_entry (init lib_ex (params_wall 10) problem_wall [0] [] [] [] []
            (1 / 100000000)).1
          (init lib_ex (params_wall 10) problem_wall [0] [] [] [] []
            (1 / 100000000)).2)).1.rₖ
    = (adapt_iter (init lib_ex (params_wall 10) problem_wall [0] [] [] [] []
          (1 / 100000000)).1 2
        (adapt_entry (init lib_ex (params_wall 10) problem_wall [0] [] [] [] []
            (1 / 100000000)).1
          (init lib_ex (params_wall 10) problem_wall [0] [] [] [] []
            (1 / 100000000)).2)).1.rₖ :=
  ((C19_reset_gives_gradient_step lib_ex (fun _ _ => rfl) rfl rfl (params_wall 10)
      problem_wall [0] [] [] [] [] (1 / 100000000)).2.2 2 _ rfl).1

/-! ## C16: the quadratic in one variable -/

/-- The history never holds more than `mem` pairs. -/
theorem LBFGS_update_size (l : LBFGS) (s y : vec) (h : l.hist.length ≤ l.mem) :
    (l.update s y).hist.length ≤ (l.update s y).mem := by
  unfold LBFGS.update
  split
  · exact h
  · split
    · dsimp only
      split
      · simp only [List.length_append, List.length_drop, List.length_singleton]
        omega
      · simp only [List.length_append, List.length_singleton]
        omega
    · exact h

/-- C21: for every problem, `g`, `Σ⁻¹y`, `y` and `Σ`, the `ŷ` written by the fused routine
`calc_ẑŷ` equals the `ŷ` written by `calc_ŷ` from the slack written by `calc_ẑ`; both are
`Σ∘(g − project(g + Σ⁻¹y, D)) + y`. -/
theorem C21_fused_equals_two_step (p : Problem) (g Sig_inv_y y Sig : vec) :
    calc_z_hat_y_hat p g Sig_inv_y y Sig = calc_y_hat (calc_z_hat p g Sig_inv_y) g y Sig
    ∧ calc_z_hat_y_hat p g Sig_inv_y y Sig
        = vadd (cwiseProduct Sig (vsub g (project (vadd g Sig_inv_y) p.D))) y :=
  ⟨rfl, rfl⟩

/-! ## C22: `detail::project_y` -/

theorem max_lb_eq (M y : real_t) (z_lb : Option ℚ) :
    detail.max_lb M y z_lb = max y (y_lb_of M z_lb) := by
  cases z_lb <;> simp [detail.max_lb, y_lb_of]

theorem min_ub_eq (M y : real_t) (z_ub : Option ℚ) :
    detail.min_ub M y z_ub = min y (y_ub_of M z_ub) := by
  cases z_ub <;> simp [detail.min_ub, y_ub_of]

theorem y_range (M : real_t) (hM : 0 ≤ M) (z_lb z_ub : Option ℚ) :
    -M ≤ y_lb_of M z_lb ∧ y_lb_of M z_lb ≤ 0 ∧ 0 ≤ y_ub_of M z_ub ∧ y_ub_of M z_ub ≤ M := by
  cases z_lb <;> cases z_ub <;> simp [y_lb_of, y_ub_of, hM]

theorem min_max_idem (a l u : real_t) :
    min (max (min (max a l) u) l) u = min (max a l) u := by
  rcases le_total (max a l) u with h | h
  · rw [min_eq_left h, max_eq_left (le_max_right a l), min_eq_left h]
  · rw [min_eq_right h, min_eq_right (le_max_left u l)]

theorem project_y_idem (M : real_t) : ∀ (y : vec) (z_lb z_ub : List (Option ℚ)),
    detail.project_y (detail.project_y y z_lb z_ub M) z_lb z_ub M
      = detail.project_y y z_lb z_ub M := by
  intro y
  induction y with
  | nil => intro z_lb z_ub; simp [detail.project_y]
  | cons a t ih =>
    intro z_lb z_ub
    cases z_lb with
    | nil => simp [detail.project_y]
    | cons l z_lb =>
      cases z_ub with
      | nil => simp [detail.project_y]
      | cons u z_ub =>
        have := ih z_lb z_ub
        simp only [detail.project_y, List.zipWith_cons_cons] at this ⊢
        rw [this]
        congr 1
        rw [max_lb_eq, min_ub_eq, max_lb_eq, min_ub_eq]
        exact min_max_idem a _ _

/-- C22: for `M ≥ 0`, `detail::project_y` replaces the component `yᵢ` by
`min(max(yᵢ, y_lb), y_ub)` with `y_lb = 0` if `z_lbᵢ = −∞` and `−M` otherwise, `y_ub = 0` if
`z_ubᵢ = +∞` and `M` otherwise; the result lies in `[y_lb, y_ub]`, which lies in
`[−M, M]`; it is `0` when both bounds are infinite; it is `yᵢ` when `yᵢ` is already in
the range; the length is kept for inputs of equal length; and applying
`project_y` twice gives the same as applying it once. -/
theorem C22_project_y_clamps (y : vec) (z_lb z_ub : List (Option ℚ)) (M : real_t)
    (hM : 0 ≤ M) :
    (∀ (i : Nat) (a : real_t) (lb ub : Option ℚ),
        y[i]? = some a → z_lb[i]? = some lb → z_ub[i]? = some ub →
        (detail.project_y y z_lb z_ub M)[i]?
            = some (min (max a (y_lb_of M lb)) (y_ub_of M ub))
        ∧ y_lb_of M lb ≤ min (max a (y_lb_of M lb)) (y_ub_of M ub)
        ∧ min (max a (y_lb_of M lb)) (y_ub_of M ub) ≤ y_ub_of M ub
        ∧ -M ≤ y_lb_of M lb ∧ y_ub_of M ub ≤ M
        ∧ (lb = none → ub = none → min (max a (y_lb_of M lb)) (y_ub_of M ub) = 0)
        ∧ (y_lb_of M lb ≤ a → a ≤ y_ub_of M ub →
            min (max a (y_lb_of M lb)) (y_ub_of M ub) = a))
    ∧ (y.length = z_lb.length → y.length = z_ub.length →
        (detail.project_y y z_lb z_ub M).length = y.length)
    ∧ detail.project_y (detail.project_y y z_lb z_ub M) z_lb z_ub M
        = detail.project_y y z_lb z_ub M := by
  refine ⟨?_, ?_, project_y_idem M y z_lb z_ub⟩
  · intro i a lb ub ha hlb hub
    obtain ⟨h1, h2, h3, h4⟩ := y_range M hM lb ub
    have hz : (detail.project_y y z_lb z_ub M)[i]?
        = some (min (max a (y_lb_of M lb)) (y_ub_of M ub)) := by
      unfold detail.project_y
      have := zipWith_getElem?_some (detail.min_ub M) _ z_ub i _ ub
        (zipWith_getElem?_some (detail.max_lb M) y z_lb i a lb ha hlb) hub
      rw [this, min_ub_eq, max_lb_eq]
    refine ⟨hz, le_min (le_max_right _ _) (le_trans h2 h3), min_le_right _ _, h1, h4, ?_, ?_⟩
    · intro hl hu
      subst hl; subst hu
      show min (max a 0) 0 = 0
      exact min_eq_right (le_max_right a 0)
    · intro hla hau
      rw [max_eq_left hla, min_eq_left hau]
  · intro hl hu
    simp [detail.project_y, ← hl, ← hu]

/-- Witness for C22 with `M = 1`, `y = [3, -2, 1/2, 5]`, lower bounds `−∞, 0, 0, −∞` and
upper bounds `+∞, 1, +∞, 1`: the result is `[0, -1, 0, 1]`. -/
theorem C22_project_y_clamps_witness :
    detail.project_y [3, -2, 1 / 2, 5] [none, some 0, some 0, none]
        [none, some 1, none, some 1] 1 = [0, -1, 0, 1]
    ∧ detail.project_y
        (detail.project_y [3, -2, 1 / 2, 5] [none, some 0, some 0, none]
          [none, some 1, none, some 1] 1)
        [none, some 0, some 0, none] [none, some 1, none, some 1] 1
      = detail.project_y [3, -2, 1 / 2, 5] [none, some 0, some 0, none]
          [none, some 1, none, some 1] 1 :=
  ⟨by decide!,
   (C22_project_y_clamps [3, -2, 1 / 2, 5] [none, some 0, some 0, none]
      [none, some 1, none, some 1] 1 (by decide!)).2.2⟩

end pa
